import Mathlib

/-
Verification development for the jrtools repository.

Part 1 models `flux_densities.py`: the coefficient table `_COEFF_TABLE`,
`get_sources`, `get_source_coeffs` and `get_jy`.

Part 2 (further below) models `quick_chart.py`: `Series`, `Chart`, `Page`,
JSON serialization with `json.dumps(..., indent=2)` and the placeholder
substitution performed by `Series.data_placeholder_replace`.

Conventions:
* Python floats in the coefficient table are decimal literals; they are
  modelled as exact rationals, and the real-valued evaluation casts them
  to `ℝ`.  `math.log(x, 10)` is `Real.logb 10 x`, guarded by the
  `math domain error` (`ValueError`) branch for non-positive arguments,
  and `pow(x, y)` on floats is `Real.rpow`.
* Python `None` results become `Option.none`; raised exceptions become
  `Except.error` carrying the exception message.
* `str.lower()` is modelled by the ASCII lowering `pyLower` (all strings in
  the table are ASCII, where CPython's `lower` agrees).
-/
/-- ASCII lowering of one character, as `str.lower()` acts on ASCII. -/
def lowerChar (c : Char) : Char :=
  if 'A' ≤ c ∧ c ≤ 'Z' then Char.ofNat (c.toNat + 32) else c

/-- `s.lower()` for ASCII strings. -/
def pyLower (s : String) : String := ⟨s.data.map lowerChar⟩

/-- One row of the coefficient table, as repackaged by `get_source_coeffs`
into `namedtuple('SourceCoeffs', 'name a0 a1 a2 a3 a4 a5 fit fmin fmax')`. -/
structure SourceCoeffs where
  name : String
  a0 : ℚ
  a1 : ℚ
  a2 : ℚ
  a3 : ℚ
  a4 : ℚ
  a5 : ℚ
  fit : ℚ
  fmin : ℚ
  fmax : ℚ
deriving DecidableEq, Repr

/-- The fixed table `_COEFF_TABLE` of `flux_densities.py` (20 rows, in
declaration order). -/
def COEFF_TABLE : List SourceCoeffs := [
  ⟨"J0133-3629", 1.0440, -0.6620, -0.225, 0.0, 0.0, 0.0, 267.0, 0.20, 4⟩,
  ⟨"3C48", 1.3253, -0.7553, -0.1914, 0.0498, 0.0, 0.0, 3.1, 0.05, 50⟩,
  ⟨"Fornax A", 2.2180, -0.661, 0.0, 0.0, 0.0, 0.0, 17.0, 0.20, 0.5⟩,
  ⟨"3C123", 1.8017, -0.7884, -0.1035, -0.0248, 0.009, 0.0, 1.9, 0.05, 50⟩,
  ⟨"J0444-2809", 0.9710, -0.8940, -0.118, 0.0, 0.0, 0.0, 3.3, 0.20, 2.0⟩,
  ⟨"3C138", 1.0088, -0.4981, -0.155, -0.0100, 0.0220, 0.0, 1.5, 0.20, 50⟩,
  ⟨"Pictor A", 1.9380, -0.7470, -0.074, 0.0, 0.0, 0.0, 8.1, 0.20, 4.0⟩,
  ⟨"Taurus A", 2.9516, -0.217, -0.047, -0.067, 0.0, 0.0, 1.9, 0.05, 4.0⟩,
  ⟨"3C147", 1.4516, -0.6961, -0.201, 0.064, -0.046, 0.029, 2.2, 0.05, 50⟩,
  ⟨"3C196", 1.2872, -0.8530, -0.153, -0.0200, 0.0201, 0.0, 1.6, 0.05, 50⟩,
  ⟨"Hydra A", 1.7795, -0.9176, -0.084, -0.0139, 0.03, 0.0, 3.5, 0.05, 12⟩,
  ⟨"Virgo A", 2.4466, -0.8116, -0.048, 0.0, 0.0, 0.0, 2.0, 0.05, 3⟩,
  ⟨"3C286", 1.2481, -0.4507, -0.1798, 0.0357, 0.0, 0.0, 1.9, 0.05, 50⟩,
  ⟨"3C295", 1.4701, -0.7658, -0.278, -0.0347, 0.0399, 0.0, 1.6, 0.05, 50⟩,
  ⟨"Hercules A", 1.8298, -1.0247, -0.0951, 0.0, 0.0, 0.0, 2.3, 0.20, 12⟩,
  ⟨"3C353", 1.8627, -0.6938, -0.100, -0.0320, 0.0, 0.0, 2.2, 0.20, 4⟩,
  ⟨"3C380", 1.2320, -0.7910, 0.095, 0.0980, -0.18, -0.16, 2.9, 0.05, 50⟩,
  ⟨"Cygnus A", 3.3498, -1.0022, -0.225, 0.023, 0.043, 0.0, 1.9, 0.05, 12⟩,
  ⟨"3C444", 1.1064, -1.0050, -0.075, -0.0770, 0.0, 0.0, 5.7, 0.20, 12⟩,
  ⟨"Cassiopeia A", 3.3584, -0.7518, -0.035, -0.071, 0.0, 0.0, 2.1, 0.2, 4⟩
]

/-- `get_sources()`: the names of the table rows, in table order. -/
def get_sources : List String :=
  COEFF_TABLE.map (fun c => c.name)

/-- `get_source_coeffs(source_name)`: first row whose name matches
case-insensitively (`coeffs[0].lower() == source_name.lower()`), else `None`. -/
def get_source_coeffs (source_name : String) : Option SourceCoeffs :=
  COEFF_TABLE.find? (fun c => pyLower c.name == pyLower source_name)

/-- `get_jy(source, freq_ghz)`: `None` when the source is unknown, a raised
`ValueError: math domain error` when `math.log` is applied to a non-positive
frequency, otherwise `10 ** (a0 + a1*log10 f + a2*log10(f)**2 + ... + a5*log10(f)**5)`. -/
noncomputable def get_jy (source : String) (freq_ghz : ℝ) : Except String (Option ℝ) :=
  match get_source_coeffs source with
  | none => .ok none
  | some coeffs =>
      if 0 < freq_ghz then
        .ok (some (Real.rpow 10 ((coeffs.a0 : ℝ)
          + (coeffs.a1 : ℝ) * Real.logb 10 freq_ghz
          + (coeffs.a2 : ℝ) * Real.rpow (Real.logb 10 freq_ghz) 2
          + (coeffs.a3 : ℝ) * Real.rpow (Real.logb 10 freq_ghz) 3
          + (coeffs.a4 : ℝ) * Real.rpow (Real.logb 10 freq_ghz) 4
          + (coeffs.a5 : ℝ) * Real.rpow (Real.logb 10 freq_ghz) 5)))
      else
        .error "math domain error"

/-
Part 2: the model of `quick_chart.py`.

* Python `str` values are Lean `String`s; character-level reasoning uses
  `List Char` via `String.data`.
* `json.dumps(x, indent=2)` is modelled by `dumps`, built from a stream of
  chunks (`Chunk.raw` for structural text, `Chunk.lit` for a quoted string
  literal) so that the placeholder substitution can be analysed chunkwise.
* Python dicts preserve insertion order; assignment to an existing key keeps
  its position; `pop` removes it.  This is `dictSet` / `dictPop` on an
  ordered association list.
* Series data payloads in this repository are lists of `[x, y]` numeric
  pairs; they are modelled as `List (List Int)` (their rendering via `str()`
  only matters for the javascript `var` statements, never for the JSON
  document, whose `data` entry is the placeholder string).
* A raised `Exception` becomes `Except.error` with the exception message.
-/
/-- The two brace characters, kept out of string literals. -/
def lbrace : Char := Char.ofNat 123

def rbrace : Char := Char.ofNat 125

/-- Recursion core of `replaceL`; the fuel dominates the length of the text,
so it never runs out on the lists `replaceL` passes in. -/
def replaceLAux (pat rep : List Char) : Nat → List Char → List Char
  | _, [] => []
  | 0, l => l
  | fuel + 1, c :: rest =>
      if pat.isPrefixOf (c :: rest) && !pat.isEmpty then
        rep ++ replaceLAux pat rep fuel (rest.drop (pat.length - 1))
      else
        c :: replaceLAux pat rep fuel rest

/-- Python `text.replace(old, new)` for a nonempty `old`: left-to-right scan
replacing all non-overlapping occurrences.  (For `old = []` this is the
identity; the program only ever replaces nonempty patterns.) -/
def replaceL (pat rep l : List Char) : List Char :=
  replaceLAux pat rep l.length l

/-- `pat in text` on character lists. -/
def containsL (pat : List Char) : List Char → Bool
  | [] => pat.isEmpty
  | c :: rest => pat.isPrefixOf (c :: rest) || containsL pat rest

/-- Occurrence of `pat` as a contiguous segment of `l`. -/
def occursIn (pat l : List Char) : Prop := ∃ a b, l = a ++ pat ++ b

/-- Python `s.replace(old, new)` on strings. -/
def pyReplace (s patS repS : String) : String := ⟨replaceL patS.data repS.data s.data⟩

/-- Python `pat in s` on strings. -/
def pyContains (s patS : String) : Bool := containsL patS.data s.data

/-- The JSON/Python values `quick_chart` stores in a chart configuration:
`None`, booleans, integers, strings, lists and (insertion-ordered) dicts. -/
inductive Json where
  | null : Json
  | bool (b : Bool) : Json
  | num (n : Int) : Json
  | str (s : String) : Json
  | arr (elems : List Json) : Json
  | obj (fields : List (String × Json)) : Json

/-- Decimal digit character. -/
def digitChar (n : Nat) : Char := Char.ofNat (48 + n)

/-- Recursion core of `natDigits` (the fuel dominates the digit count). -/
def natDigitsAux : Nat → Nat → List Char
  | 0, n => [digitChar n]
  | fuel + 1, n =>
      if n < 10 then [digitChar n]
      else natDigitsAux fuel (n / 10) ++ [digitChar (n % 10)]

/-- Decimal digits of a natural number, most significant first. -/
def natDigits (n : Nat) : List Char := natDigitsAux n n

/-- Python `str(n)` for an int. -/
def intRender (n : Int) : List Char :=
  if n < 0 then '-' :: natDigits n.natAbs else natDigits n.natAbs

/-- Lower-case hexadecimal digit. -/
def hexDigitChar (n : Nat) : Char :=
  if n < 10 then Char.ofNat (48 + n) else Char.ofNat (87 + n)

/-- A `\uXXXX` escape. -/
def uEscape (n : Nat) : List Char :=
  ['\\', 'u', hexDigitChar (n / 4096 % 16), hexDigitChar (n / 256 % 16),
   hexDigitChar (n / 16 % 16), hexDigitChar (n % 16)]

/-- How `json.dumps` (with its default `ensure_ascii=True`) escapes one
character inside a string literal. -/
def escChar (c : Char) : List Char :=
  if c = '"' then ['\\', '"']
  else if c = '\\' then ['\\', '\\']
  else if c = '\n' then ['\\', 'n']
  else if c = '\t' then ['\\', 't']
  else if c = '\r' then ['\\', 'r']
  else if c = Char.ofNat 8 then ['\\', 'b']
  else if c = Char.ofNat 12 then ['\\', 'f']
  else if 32 ≤ c.toNat ∧ c.toNat ≤ 126 then [c]
  else if c.toNat < 65536 then uEscape c.toNat
  else uEscape (55296 + (c.toNat - 65536) / 1024) ++ uEscape (56320 + (c.toNat - 65536) % 1024)

/-- `json.dumps` escaping of a whole string (without the delimiting quotes). -/
def escapeJson (s : List Char) : List Char :=
  s.foldr (fun c acc => escChar c ++ acc) []

/-- A character that `json.dumps` emits verbatim: printable ASCII other than
the quote and the backslash. -/
def verbatimChar (c : Char) : Bool :=
  (32 ≤ c.toNat && c.toNat ≤ 126) && !(c = '"') && !(c = '\\')

/-- A string that serializes verbatim inside a JSON string literal. -/
def verbatimStr (s : String) : Bool := s.data.all verbatimChar

/-- One piece of serialized JSON text: structural text (`raw`) or a quoted
string literal (`lit s`, rendered as `'"' :: s ++ ['"']`). -/
inductive Chunk where
  | raw (s : List Char) : Chunk
  | lit (s : List Char) : Chunk
deriving DecidableEq

/-- Concatenate a chunk stream back into text. -/
def renderC : List Chunk → List Char
  | [] => []
  | .raw s :: rest => s ++ renderC rest
  | .lit s :: rest => '"' :: (s ++ '"' :: renderC rest)

/-- `n` spaces. -/
def spaces (n : Nat) : List Char := List.replicate n ' '

mutual

/-- The chunk stream of `json.dumps(x, indent=2)` at absolute indent `ind`:
newline after every opening bracket of a nonempty container, items indented
two more spaces, separators `',' newline indent` and `': '`, closing bracket
on its own line at the parent indent, `{}`/`[]` for empty containers. -/
def dumpsChunks : Json → Nat → List Chunk
  | .null, _ => [.raw "null".data]
  | .bool true, _ => [.raw "true".data]
  | .bool false, _ => [.raw "false".data]
  | .num n, _ => [.raw (intRender n)]
  | .str s, _ => [.lit (escapeJson s.data)]
  | .arr [], _ => [.raw ['[', ']']]
  | .arr (j :: js), ind =>
      .raw ('[' :: '\n' :: spaces (ind + 2)) :: (dumpsChunks j (ind + 2)
        ++ dumpsArr js (ind + 2) ++ [.raw ('\n' :: spaces ind ++ [']'])])
  | .obj [], _ => [.raw [lbrace, rbrace]]
  | .obj ((k, v) :: fs), ind =>
      .raw (lbrace :: '\n' :: spaces (ind + 2)) :: .lit (escapeJson k.data)
        :: .raw [':', ' '] :: (dumpsChunks v (ind + 2)
        ++ dumpsObj fs (ind + 2) ++ [.raw ('\n' :: spaces ind ++ [rbrace])])

/-- Continuation items of a nonempty JSON array. -/
def dumpsArr : List Json → Nat → List Chunk
  | [], _ => []
  | j :: js, ind =>
      .raw (',' :: '\n' :: spaces ind) :: (dumpsChunks j ind ++ dumpsArr js ind)

/-- Continuation items of a nonempty JSON object. -/
def dumpsObj : List (String × Json) → Nat → List Chunk
  | [], _ => []
  | (k, v) :: fs, ind =>
      .raw (',' :: '\n' :: spaces ind) :: .lit (escapeJson k.data)
        :: .raw [':', ' '] :: (dumpsChunks v ind ++ dumpsObj fs ind)

end

/-- `json.dumps(x, indent=2)`. -/
def dumps (j : Json) : String := ⟨renderC (dumpsChunks j 0)⟩

mutual

/-- Every string occurring in a JSON value (keys and string values). -/
def JStrings : Json → List String
  | .str s => [s]
  | .arr l => JStringsArr l
  | .obj l => JStringsObj l
  | .null => []
  | .bool _ => []
  | .num _ => []

/-- Strings of a list of JSON values. -/
def JStringsArr : List Json → List String
  | [] => []
  | j :: js => JStrings j ++ JStringsArr js

/-- Strings of JSON object fields. -/
def JStringsObj : List (String × Json) → List String
  | [] => []
  | (k, v) :: fs => k :: (JStrings v ++ JStringsObj fs)

end

/-- `name.replace(' ', '_')`. -/
def underscoreName (s : String) : String :=
  ⟨s.data.map (fun c => if c = ' ' then '_' else c)⟩

/-- A data series (`Series.__init__(name, data, marker=None)`).  The stored
`_series` dict is reconstructed by `Series.series` below. -/
structure Series where
  name : String
  data : List (List Int)
  marker : Option Json

/-- `self._series['data']`, the placeholder token
`'%s_placeholder' % name.replace(' ', '_')`. -/
def Series.placeholder (s : Series) : String :=
  underscoreName s.name ++ "_placeholder"

/-- `Series.javascript_var_name`: `name.replace(' ', '_') + '_data'`, with a
leading `'_'` when the first character is a digit (`var_name[0].isdigit()`;
the name always ends in `"_data"`, so it is never empty and `var_name[0]`
is its head). -/
def Series.javascript_var_name (s : Series) : String :=
  if (((underscoreName s.name ++ "_data") : String).data.headD ' ').isDigit then
    "_" ++ (underscoreName s.name ++ "_data")
  else underscoreName s.name ++ "_data"

/-- The `_series` dict: `name`, the placeholder under `data`, then the
optional `marker` entry. -/
def Series.series (s : Series) : Json :=
  .obj ([("name", .str s.name), ("data", .str s.placeholder)]
    ++ (match s.marker with | some m => [("marker", m)] | none => []))

/-- `Series.get_data_as_str`: Python `str()` of the data list. -/
def Series.get_data_as_str (s : Series) : String :=
  "[" ++ String.intercalate ", " (s.data.map (fun row =>
    "[" ++ String.intercalate ", " (row.map (fun n => (⟨intRender n⟩ : String))) ++ "]")) ++ "]"

/-- `Series.to_javascript_var`: `'var %s = %s;'`. -/
def Series.to_javascript_var (s : Series) : String :=
  "var " ++ s.javascript_var_name ++ " = " ++ s.get_data_as_str ++ ";"

/-- `Series.get_js_var_definitions`: one `var` statement per series. -/
def Series.get_js_var_definitions (list_of_series : List Series) : List String :=
  list_of_series.map Series.to_javascript_var

/-- `Series.data_placeholder_replace`: for each series in order, replace every
occurrence of its quoted placeholder `'"%s_placeholder"'` by the bare
javascript variable name. -/
def Series.data_placeholder_replace (json_string : String)
    (list_of_series : List Series) : String :=
  list_of_series.foldl
    (fun js s => pyReplace js ("\"" ++ s.placeholder ++ "\"") s.javascript_var_name)
    json_string

/-- `d.get(k)`: first binding of `k` (the only one — dicts keep keys unique). -/
def dictGet : List (String × Json) → String → Option Json
  | [], _ => none
  | p :: t, k => if p.1 = k then some p.2 else dictGet t k

/-- Assignment `d[k] = v` on an insertion-ordered dict: an existing key keeps
its position, a new key goes to the end. -/
def dictSet : List (String × Json) → String → Json → List (String × Json)
  | [], k, v => [(k, v)]
  | p :: t, k, v => if p.1 = k then (k, v) :: t else p :: dictSet t k v

/-- `d.pop(k, None)` (dropping the returned value). -/
def dictPop : List (String × Json) → String → List (String × Json)
  | [], _ => []
  | p :: t, k => if p.1 = k then dictPop t k else p :: dictPop t k

/-- `k in d`. -/
def dictContains (d : List (String × Json)) (k : String) : Bool :=
  (dictGet d k).isSome

/-- A chart: the configuration dict `self._chart`, the retained series
instances, and the width/height. -/
structure Chart where
  _chart : List (String × Json)
  _series_instances_list : List Series
  width : Int
  height : Int

/-- Python `None`-or-string arguments become JSON null or string. -/
def optStr : Option String → Json
  | none => .null
  | some s => .str s

/-- `Chart.set_chart(chart_type='line', zoom_type='x')`: pops the section when
`chart_type is None`, then (unconditionally) reassigns it. -/
def Chart.set_chart (c : Chart) (chart_type zoom_type : Option String) : Chart :=
  let d := if chart_type = none then dictPop c._chart "chart" else c._chart
  let v : Json := .obj [("type", optStr chart_type), ("zoomType", optStr zoom_type)]
  { c with _chart := dictSet d "chart" v }

/-- `Chart.set_credits(text='jrtools', href='http://github.com/jrseti/jrtools')`. -/
def Chart.set_credits (c : Chart) (text href : Option String) : Chart :=
  let v : Json := .obj [("text", optStr text), ("href", optStr href)]
  { c with _chart := dictSet c._chart "credits" v }

/-- `Chart.set_title(title='Chart Title')`. -/
def Chart.set_title (c : Chart) (title : Option String) : Chart :=
  { c with _chart := dictSet c._chart "title" (.obj [("text", optStr title)]) }

/-- `Chart.set_subtitle(subtitle=None)`: pops the section on `None`. -/
def Chart.set_subtitle (c : Chart) (subtitle : Option String) : Chart :=
  match subtitle with
  | none => { c with _chart := dictPop c._chart "subtitle" }
  | some s => { c with _chart := dictSet c._chart "subtitle" (.obj [("text", .str s)]) }

/-- `Chart.set_xaxis(axis_type='linear', text='Need to set X axis text')`. -/
def Chart.set_xaxis (c : Chart) (axis_type text : Option String) : Chart :=
  let v : Json := .obj [("type", optStr axis_type), ("title", .obj [("text", optStr text)])]
  { c with _chart := dictSet c._chart "xAxis" v }

/-- `Chart.set_yaxis(axis_type='linear', text='Need to set Y axis text')`. -/
def Chart.set_yaxis (c : Chart) (axis_type text : Option String) : Chart :=
  let v : Json := .obj [("type", optStr axis_type), ("title", .obj [("text", optStr text)])]
  { c with _chart := dictSet c._chart "yAxis" v }

/-- `Chart.set_tooltip(tooltip_dict=None)`: pops the section on `None`. -/
def Chart.set_tooltip (c : Chart) (tooltip_dict : Option Json) : Chart :=
  match tooltip_dict with
  | none => { c with _chart := dictPop c._chart "tooltip" }
  | some t => { c with _chart := dictSet c._chart "tooltip" t }

/-- `Chart.set_plot_options(plot_options_dict=None)`: pops the section on `None`. -/
def Chart.set_plot_options (c : Chart) (plot_options_dict : Option Json) : Chart :=
  match plot_options_dict with
  | none => { c with _chart := dictPop c._chart "plotOptions" }
  | some t => { c with _chart := dictSet c._chart "plotOptions" t }

/-- `Chart.set_width`. -/
def Chart.set_width (c : Chart) (w : Int) : Chart := { c with width := w }

/-- `Chart.set_height`. -/
def Chart.set_height (c : Chart) (h : Int) : Chart := { c with height := h }

/-- `Chart.__init__`: `_set_defaults` calls the setters with their default
arguments in source order (credits, chart, title, subtitle, xAxis, yAxis,
tooltip, plotOptions), then width 800 and height 400. -/
def Chart.init : Chart :=
  ((((((((⟨[], [], 800, 400⟩ : Chart).set_credits
      (some "jrtools") (some "http://github.com/jrseti/jrtools")).set_chart
      (some "line") (some "x")).set_title
      (some "Chart Title")).set_subtitle none).set_xaxis
      (some "linear") (some "Need to set X axis text")).set_yaxis
      (some "linear") (some "Need to set Y axis text")).set_tooltip
      none).set_plot_options none

/-- `Chart.add_series`: appends `series.series` to `self._chart['series']`
(created on first use) and retains the instance. -/
def Chart.add_series (c : Chart) (s : Series) : Chart :=
  let series_list := match dictGet c._chart "series" with
    | some (.arr l) => l
    | _ => []
  { c with
    _chart := dictSet c._chart "series" (.arr (series_list ++ [s.series])),
    _series_instances_list := c._series_instances_list ++ [s] }

/-- `Chart.to_json_string`: `json.dumps(self._chart, indent=2)` followed by the
placeholder substitution; raises when `'series' not in self._chart`. -/
def Chart.to_json_string (c : Chart) : Except String String :=
  if dictContains c._chart "series" then
    .ok (Series.data_placeholder_replace (dumps (.obj c._chart))
      c._series_instances_list)
  else
    .error "The series has not been defined. Cannot create a valid chart."

/-- `Chart.get_series_js_var_statements`: the per-series `var` statements;
raises when `'series' not in self._chart`. -/
def Chart.get_series_js_var_statements (c : Chart) : Except String (List String) :=
  if dictContains c._chart "series" then
    .ok (Series.get_js_var_definitions c._series_instances_list)
  else
    .error "The series has not been defined. Cannot create a valid chart."

/-- An HTML page (`Page.__init__(title_text)`). -/
structure Page where
  _title_text : Option String
  _charts : List Chart

/-- `Page.add_chart`. -/
def Page.add_chart (p : Page) (new_chart : Chart) : Page :=
  { p with _charts := p._charts ++ [new_chart] }

/-- `Page._indent(num_spaces, text)`. -/
def Page.indentText (num_spaces : Nat) (text : String) : String :=
  (⟨spaces num_spaces⟩ : String) ++ text

/-- `Page._get_header_text`. -/
def Page.header_text (p : Page) : String :=
  "<!DOCTYPE html>\n<html>\n<head>\n"
  ++ "<script src=\"http://ajax.googleapis.com/ajax/libs/jquery/1.8.2/jquery.min.js\"></script>\n"
  ++ "<script src=\"http://code.highcharts.com/highcharts.js\"></script>\n</head>\n<body>\n"
  ++ (match p._title_text with
      | some t => "<h1 style=\"text-align:center;\">" ++ t ++ "</h1>\n"
      | none => "")

/-- `Page._get_footer_text` (the reassignment in the source leaves only
`'</html>'`). -/
def Page.footer_text : String := "</html>"

/-- The `<div id="container%d" ...>` line emitted for chart `index`. -/
def Page.divLine (index : Nat) (w h : Int) : String :=
  "  <div id=\"container" ++ (⟨natDigits index⟩ : String)
  ++ "\" style=\"display:block;margin-left:auto;margin-right: auto; width:"
  ++ (⟨intRender w⟩ : String) ++ "px;height:" ++ (⟨intRender h⟩ : String)
  ++ "px;\"></div>\n"

/-- The HTML fragment `Page.to_html` emits for one chart; an exception from
the chart aborts the whole rendering. -/
def Page.chartHtml (index : Nat) (chart : Chart) : Except String String := do
  let vars ← chart.get_series_js_var_statements
  let js ← chart.to_json_string
  .ok (Page.divLine index chart.width chart.height
    ++ Page.indentText 2 "<script>\n"
    ++ Page.indentText 4 ("$(function () " ++ (⟨[lbrace]⟩ : String) ++ "\n")
    ++ String.join (vars.map (fun v => Page.indentText 6 v ++ "\n"))
    ++ Page.indentText 6 ("$(\"#container" ++ (⟨natDigits index⟩ : String) ++ "\").highcharts(\n")
    ++ String.join ((js.splitOn "\n").map (fun line => Page.indentText 8 line ++ "\n"))
    ++ Page.indentText 4 ");\n"
    ++ Page.indentText 4 ((⟨[rbrace]⟩ : String) ++ ");\n")
    ++ Page.indentText 2 "</script>\n")

/-- The enumerated chart fragments of `Page.to_html`. -/
def Page.chartsHtml : Nat → List Chart → Except String String
  | _, [] => .ok ""
  | i, ch :: rest => do
      let h ← Page.chartHtml i ch
      let t ← Page.chartsHtml (i + 1) rest
      .ok (h ++ t)

/-- `Page.to_html`: header, then every chart's fragment, then the footer. -/
def Page.to_html (p : Page) : Except String String := do
  let body ← Page.chartsHtml 0 p._charts
  .ok (p.header_text ++ body ++ Page.footer_text)

/-- The chart-building API calls (every mutator of `Chart`). -/
inductive ChartOp where
  | setChart (ct zt : Option String)
  | setCredits (t href : Option String)
  | setTitle (t : Option String)
  | setSubtitle (t : Option String)
  | setXaxis (ty tx : Option String)
  | setYaxis (ty tx : Option String)
  | setTooltip (d : Option Json)
  | setPlotOptions (d : Option Json)
  | setWidth (w : Int)
  | setHeight (h : Int)
  | addSeries (s : Series)

/-- Apply one API call. -/
def ChartOp.apply (c : Chart) : ChartOp → Chart
  | .setChart ct zt => c.set_chart ct zt
  | .setCredits t href => c.set_credits t href
  | .setTitle t => c.set_title t
  | .setSubtitle t => c.set_subtitle t
  | .setXaxis ty tx => c.set_xaxis ty tx
  | .setYaxis ty tx => c.set_yaxis ty tx
  | .setTooltip d => c.set_tooltip d
  | .setPlotOptions d => c.set_plot_options d
  | .setWidth w => c.set_width w
  | .setHeight h => c.set_height h
  | .addSeries s => c.add_series s

/-- Is this call `add_series`? -/
def ChartOp.isAdd : ChartOp → Bool
  | .addSeries _ => true
  | _ => false

/-- The series added by this call, if any. -/
def ChartOp.seriesArg : ChartOp → Option Series
  | .addSeries s => some s
  | _ => none

/-- A chart freshly constructed and then driven through a sequence of API
calls. -/
def buildChart (ops : List ChartOp) : Chart :=
  ops.foldl ChartOp.apply Chart.init

/-! Prefix/suffix relations on character lists, and the tails of the
generated placeholder / variable names. -/
def prefOf (a b : List Char) : Prop := ∃ t, b = a ++ t

def sufOf (a b : List Char) : Prop := ∃ t, b = t ++ a

/-- The fixed tail `"_data"` of every javascript variable name. -/
def dataTail : List Char := ['_', 'd', 'a', 't', 'a']

/-- The fixed tail `"_placeholder"` of every placeholder token. -/
def placeTail : List Char := ['_', 'p', 'l', 'a', 'c', 'e', 'h', 'o', 'l', 'd', 'e', 'r']

/-- Structural serializer output: no quote, no underscore. -/
def structuralRaw (s : List Char) : Prop := '"' ∉ s ∧ '_' ∉ s

/-- A substituted variable name: quote-free and ending in `"_data"`. -/
def varRaw (s : List Char) : Prop := '"' ∉ s ∧ ∃ w, s = w ++ dataTail

/-- Invariant on the chunks the substitution passes over: raw chunks are
structural or previously-substituted variable names, literals are
quote-free. -/
def GoodChunk : Chunk → Prop
  | .raw s => structuralRaw s ∨ varRaw s
  | .lit s => '"' ∉ s

/-- All chunks good. -/
def GoodChunks (cs : List Chunk) : Prop := ∀ ch ∈ cs, GoodChunk ch

/-- The underscored series name, as characters. -/
def undL (s : Series) : List Char := (underscoreName s.name).data

/-- The placeholder token, as characters. -/
def placeL (s : Series) : List Char := (Series.placeholder s).data

/-- The javascript variable name, as characters. -/
def varL (s : Series) : List Char := (Series.javascript_var_name s).data

/-- One substitution pass at chunk level: the literal holding the placeholder
becomes the bare variable name. -/
def mapSeriesChunk (s : Series) (cs : List Chunk) : List Chunk :=
  cs.map (fun ch => if ch = Chunk.lit (placeL s) then Chunk.raw (varL s) else ch)

/-- All substitution passes, in series order. -/
def pipelineChunks (L : List Series) (cs : List Chunk) : List Chunk :=
  L.foldl (fun acc s => mapSeriesChunk s acc) cs

/-! Facts about the generated names and their characters. -/
/-- The javascript variable name generated from an underscored name. -/
def varOf (u : List Char) : List Char :=
  if ((u ++ dataTail).headD ' ').isDigit then '_' :: (u ++ dataTail)
  else u ++ dataTail

theorem table_names_pairwise :
    COEFF_TABLE.Pairwise (fun a b => pyLower a.name ≠ pyLower b.name) := by
  decide

theorem find_of_mem_pairwise {l : List SourceCoeffs}
    (hp : l.Pairwise (fun a b => pyLower a.name ≠ pyLower b.name))
    {c : SourceCoeffs} (hc : c ∈ l) (s : String)
    (hs : pyLower s = pyLower c.name) :
    l.find? (fun x => pyLower x.name == pyLower s) = some c := by
  induction l with
  | nil => cases hc
  | cons a t ih =>
      rcases List.mem_cons.mp hc with rfl | hct
      · simp [List.find?, hs]
      · have hane : pyLower a.name ≠ pyLower c.name :=
          (List.pairwise_cons.mp hp).1 c hct
        have hfa : (pyLower a.name == pyLower s) = false := by
          simp only [beq_eq_false_iff_ne, ne_eq, hs]
          exact hane
        simp only [List.find?, hfa]
        exact ih (List.pairwise_cons.mp hp).2 hct

theorem lookup_self {c : SourceCoeffs} (hc : c ∈ COEFF_TABLE) :
    get_source_coeffs c.name = some c :=
  find_of_mem_pairwise table_names_pairwise hc c.name rfl

theorem rpow_two_eq (x : ℝ) : Real.rpow x 2 = x ^ (2 : ℕ) := by
  rw [show (2 : ℝ) = ((2 : ℕ) : ℝ) by norm_num]
  exact Real.rpow_natCast x 2

theorem rpow_three_eq (x : ℝ) : Real.rpow x 3 = x ^ (3 : ℕ) := by
  rw [show (3 : ℝ) = ((3 : ℕ) : ℝ) by norm_num]
  exact Real.rpow_natCast x 3

theorem rpow_four_eq (x : ℝ) : Real.rpow x 4 = x ^ (4 : ℕ) := by
  rw [show (4 : ℝ) = ((4 : ℕ) : ℝ) by norm_num]
  exact Real.rpow_natCast x 4

theorem rpow_five_eq (x : ℝ) : Real.rpow x 5 = x ^ (5 : ℕ) := by
  rw [show (5 : ℝ) = ((5 : ℕ) : ℝ) by norm_num]
  exact Real.rpow_natCast x 5

/-- C1: for every source in the catalog and every frequency `f > 0` (also
outside the `[fmin, fmax]` validity range, which never enters the
computation), `get_jy` returns `10 ^ p` with
`p = a0 + a1*x + a2*x^2 + a3*x^3 + a4*x^4 + a5*x^5`, `x = log10 f`,
all six terms evaluated. -/
theorem get_jy_polynomial (c : SourceCoeffs) (hc : c ∈ COEFF_TABLE)
    (f : ℝ) (hf : 0 < f) :
    get_jy c.name f = .ok (some (Real.rpow 10 ((c.a0 : ℝ)
      + (c.a1 : ℝ) * Real.logb 10 f
      + (c.a2 : ℝ) * (Real.logb 10 f) ^ (2 : ℕ)
      + (c.a3 : ℝ) * (Real.logb 10 f) ^ (3 : ℕ)
      + (c.a4 : ℝ) * (Real.logb 10 f) ^ (4 : ℕ)
      + (c.a5 : ℝ) * (Real.logb 10 f) ^ (5 : ℕ)))) := by
  unfold get_jy
  rw [lookup_self hc]
  simp only [if_pos hf, rpow_two_eq, rpow_three_eq, rpow_four_eq, rpow_five_eq]

/-- Witness for C1 at the catalog row "Cygnus A" and frequency 3 GHz. -/
theorem get_jy_polynomial_witness :
    (⟨"Cygnus A", 3.3498, -1.0022, -0.225, 0.023, 0.043, 0.0, 1.9, 0.05, 12⟩ : SourceCoeffs) ∈ COEFF_TABLE
    ∧ (0 : ℝ) < 3
    ∧ get_jy "Cygnus A" 3 = .ok (some (Real.rpow 10 (((3.3498 : ℚ) : ℝ)
      + ((-1.0022 : ℚ) : ℝ) * Real.logb 10 3
      + ((-0.225 : ℚ) : ℝ) * (Real.logb 10 3) ^ (2 : ℕ)
      + ((0.023 : ℚ) : ℝ) * (Real.logb 10 3) ^ (3 : ℕ)
      + ((0.043 : ℚ) : ℝ) * (Real.logb 10 3) ^ (4 : ℕ)
      + ((0.0 : ℚ) : ℝ) * (Real.logb 10 3) ^ (5 : ℕ)))) :=
  ⟨by simp [COEFF_TABLE], by norm_num,
    get_jy_polynomial ⟨"Cygnus A", 3.3498, -1.0022, -0.225, 0.023, 0.043, 0.0, 1.9, 0.05, 12⟩
      (by simp [COEFF_TABLE]) 3 (by norm_num)⟩

/-- C4: for every source in the catalog and every frequency `f ≤ 0`,
`get_jy` raises the numeric-domain error (`ValueError: math domain error`
from `math.log`) instead of returning a value. -/
theorem get_jy_nonpositive_domain_error (c : SourceCoeffs) (hc : c ∈ COEFF_TABLE)
    (f : ℝ) (hf : f ≤ 0) :
    get_jy c.name f = .error "math domain error" := by
  unfold get_jy
  rw [lookup_self hc]
  simp only [if_neg (not_lt.mpr hf)]

/-- Witness for C4 at the catalog row "3C48" and frequency 0 GHz. -/
theorem get_jy_nonpositive_domain_error_witness :
    (⟨"3C48", 1.3253, -0.7553, -0.1914, 0.0498, 0.0, 0.0, 3.1, 0.05, 50⟩ : SourceCoeffs) ∈ COEFF_TABLE
    ∧ (0 : ℝ) ≤ 0
    ∧ get_jy "3C48" 0 = .error "math domain error" :=
  ⟨by simp [COEFF_TABLE], le_refl 0,
    get_jy_nonpositive_domain_error ⟨"3C48", 1.3253, -0.7553, -0.1914, 0.0498, 0.0, 0.0, 3.1, 0.05, 50⟩
      (by simp [COEFF_TABLE]) 0 (by norm_num)⟩

/-- C5: for every name that matches no catalog entry case-insensitively and
any frequency whatsoever (non-positive included), `get_jy` returns the
not-found signal `None` and does not raise. -/
theorem get_jy_unknown_none (name : String)
    (h : ∀ c ∈ COEFF_TABLE, pyLower name ≠ pyLower c.name) (f : ℝ) :
    get_jy name f = .ok none := by
  have hl : get_source_coeffs name = none := by
    apply List.find?_eq_none.mpr
    intro c hc
    simp only [beq_eq_false_iff_ne, ne_eq, Bool.not_eq_true, beq_iff_eq]
    exact fun he => (h c hc) he.symm
  unfold get_jy
  rw [hl]

/-- Witness for C5 at the unknown name "Nonexistent Source" and the
(negative) frequency -1 GHz. -/
theorem get_jy_unknown_none_witness :
    (∀ c ∈ COEFF_TABLE, pyLower "Nonexistent Source" ≠ pyLower c.name)
    ∧ get_jy "Nonexistent Source" (-1) = .ok none :=
  ⟨by decide, get_jy_unknown_none "Nonexistent Source" (by decide) (-1)⟩

/-- C6: lookup of any full case-variant of a registered name returns that
entry (so all case variants agree), and any string that is not a full
case-insensitive match of some registered name yields `None`. -/
theorem get_source_coeffs_case_insensitive :
    (∀ c ∈ COEFF_TABLE, ∀ s : String, pyLower s = pyLower c.name →
        get_source_coeffs s = some c)
    ∧ (∀ s : String, (∀ c ∈ COEFF_TABLE, pyLower s ≠ pyLower c.name) →
        get_source_coeffs s = none) := by
  constructor
  · intro c hc s hs
    exact find_of_mem_pairwise table_names_pairwise hc s hs
  · intro s h
    apply List.find?_eq_none.mpr
    intro c hc
    simp only [beq_eq_false_iff_ne, ne_eq, Bool.not_eq_true, beq_iff_eq]
    exact fun he => (h c hc) he.symm

/-- Witness for C6: "cygnus a" and "CYGNUS A" both resolve to the
"Cygnus A" row, while the partial match "Cygnus" and the whitespace variant
"Cygnus A " yield `None`. -/
theorem get_source_coeffs_case_insensitive_witness :
    get_source_coeffs "cygnus a"
      = some ⟨"Cygnus A", 3.3498, -1.0022, -0.225, 0.023, 0.043, 0.0, 1.9, 0.05, 12⟩
    ∧ get_source_coeffs "CYGNUS A"
      = some ⟨"Cygnus A", 3.3498, -1.0022, -0.225, 0.023, 0.043, 0.0, 1.9, 0.05, 12⟩
    ∧ get_source_coeffs "Cygnus" = none
    ∧ get_source_coeffs "Cygnus A " = none :=
  ⟨get_source_coeffs_case_insensitive.1 _ (by simp [COEFF_TABLE]) "cygnus a" (by decide),
   get_source_coeffs_case_insensitive.1 _ (by simp [COEFF_TABLE]) "CYGNUS A" (by decide),
   get_source_coeffs_case_insensitive.2 "Cygnus" (by decide),
   get_source_coeffs_case_insensitive.2 "Cygnus A " (by decide)⟩

/-- C7: `get_sources` returns exactly 20 names, in the order the rows are
declared in the coefficient table. -/
theorem get_sources_exact :
    get_sources = ["J0133-3629", "3C48", "Fornax A", "3C123", "J0444-2809",
      "3C138", "Pictor A", "Taurus A", "3C147", "3C196", "Hydra A",
      "Virgo A", "3C286", "3C295", "Hercules A", "3C353", "3C380",
      "Cygnus A", "3C444", "Cassiopeia A"]
    ∧ get_sources.length = 20 :=
  ⟨rfl, rfl⟩

/-! Ordered-dict lemmas. -/
theorem dictGet_dictSet (d : List (String × Json)) (k k' : String) (v : Json) :
    dictGet (dictSet d k v) k' = if k' = k then some v else dictGet d k' := by
  induction d with
  | nil =>
      by_cases h : k' = k
      · subst h
        simp [dictSet, dictGet]
      · have h2 : ¬ k = k' := fun hh => h hh.symm
        simp [dictSet, dictGet, h, h2]
  | cons p t ih =>
      by_cases hp : p.1 = k
      · by_cases h : k' = k
        · subst h
          simp [dictSet, dictGet, hp]
        · have h2 : ¬ k = k' := fun hh => h hh.symm
          simp [dictSet, dictGet, hp, h, h2, ih]
      · by_cases hq : p.1 = k'
        · have h : k' ≠ k := fun hh => hp (hq.symm ▸ hh.symm ▸ rfl)
          simp [dictSet, dictGet, hp, hq, h]
        · simp [dictSet, dictGet, hp, hq, ih]

theorem dictGet_dictPop (d : List (String × Json)) (k k' : String) :
    dictGet (dictPop d k) k' = if k' = k then none else dictGet d k' := by
  induction d with
  | nil => simp [dictPop, dictGet]
  | cons p t ih =>
      by_cases hp : p.1 = k
      · by_cases h : k' = k
        · subst h
          simp [dictPop, dictGet, hp, ih]
        · have h2 : ¬ k = k' := fun hh => h hh.symm
          simp [dictPop, dictGet, hp, h, h2, ih]
      · by_cases hq : p.1 = k'
        · have h : k' ≠ k := fun hh => hp (hq.symm ▸ hh.symm ▸ rfl)
          simp [dictPop, dictGet, hp, hq, h]
        · simp [dictPop, dictGet, hp, hq, ih]

theorem dictContains_dictSet (d : List (String × Json)) (k k' : String) (v : Json) :
    dictContains (dictSet d k v) k' = if k' = k then true else dictContains d k' := by
  unfold dictContains
  rw [dictGet_dictSet]
  by_cases h : k' = k <;> simp [h]

theorem dictContains_dictPop (d : List (String × Json)) (k k' : String) :
    dictContains (dictPop d k) k' = if k' = k then false else dictContains d k' := by
  unfold dictContains
  rw [dictGet_dictPop]
  by_cases h : k' = k <;> simp [h]

/-! Chart-state invariants under the API calls. -/
theorem contains_series_dictSet (d : List (String × Json)) (k : String) (v : Json)
    (hk : ¬ ("series" : String) = k) :
    dictContains (dictSet d k v) "series" = dictContains d "series" := by
  rw [dictContains_dictSet, if_neg hk]

theorem contains_series_dictPop (d : List (String × Json)) (k : String)
    (hk : ¬ ("series" : String) = k) :
    dictContains (dictPop d k) "series" = dictContains d "series" := by
  rw [dictContains_dictPop, if_neg hk]

theorem apply_series_key (c : Chart) (op : ChartOp) :
    dictContains (ChartOp.apply c op)._chart "series"
      = (dictContains c._chart "series" || op.isAdd) := by
  cases op with
  | setChart ct zt =>
      by_cases h : ct = none <;>
        simp +decide [ChartOp.apply, Chart.set_chart, ChartOp.isAdd, h,
          dictContains_dictSet, dictContains_dictPop]
  | setCredits t href =>
      simp +decide [ChartOp.apply, Chart.set_credits, ChartOp.isAdd,
        dictContains_dictSet]
  | setTitle t =>
      simp +decide [ChartOp.apply, Chart.set_title, ChartOp.isAdd,
        dictContains_dictSet]
  | setSubtitle t =>
      cases t <;>
        simp +decide [ChartOp.apply, Chart.set_subtitle, ChartOp.isAdd,
          dictContains_dictSet, dictContains_dictPop]
  | setXaxis ty tx =>
      simp +decide [ChartOp.apply, Chart.set_xaxis, ChartOp.isAdd,
        dictContains_dictSet]
  | setYaxis ty tx =>
      simp +decide [ChartOp.apply, Chart.set_yaxis, ChartOp.isAdd,
        dictContains_dictSet]
  | setTooltip d =>
      cases d <;>
        simp +decide [ChartOp.apply, Chart.set_tooltip, ChartOp.isAdd,
          dictContains_dictSet, dictContains_dictPop]
  | setPlotOptions d =>
      cases d <;>
        simp +decide [ChartOp.apply, Chart.set_plot_options, ChartOp.isAdd,
          dictContains_dictSet, dictContains_dictPop]
  | setWidth w => simp [ChartOp.apply, Chart.set_width, ChartOp.isAdd]
  | setHeight h => simp [ChartOp.apply, Chart.set_height, ChartOp.isAdd]
  | addSeries s =>
      simp [ChartOp.apply, Chart.add_series, ChartOp.isAdd, dictContains_dictSet]

theorem apply_instances (c : Chart) (op : ChartOp) :
    (ChartOp.apply c op)._series_instances_list
      = c._series_instances_list ++ op.seriesArg.toList := by
  cases op with
  | setChart ct zt =>
      by_cases h : ct = none <;>
        simp [ChartOp.apply, Chart.set_chart, ChartOp.seriesArg, h]
  | setCredits t href => simp [ChartOp.apply, Chart.set_credits, ChartOp.seriesArg]
  | setTitle t => simp [ChartOp.apply, Chart.set_title, ChartOp.seriesArg]
  | setSubtitle t => cases t <;> simp [ChartOp.apply, Chart.set_subtitle, ChartOp.seriesArg]
  | setXaxis ty tx => simp [ChartOp.apply, Chart.set_xaxis, ChartOp.seriesArg]
  | setYaxis ty tx => simp [ChartOp.apply, Chart.set_yaxis, ChartOp.seriesArg]
  | setTooltip d => cases d <;> simp [ChartOp.apply, Chart.set_tooltip, ChartOp.seriesArg]
  | setPlotOptions d => cases d <;> simp [ChartOp.apply, Chart.set_plot_options, ChartOp.seriesArg]
  | setWidth w => simp [ChartOp.apply, Chart.set_width, ChartOp.seriesArg]
  | setHeight h => simp [ChartOp.apply, Chart.set_height, ChartOp.seriesArg]
  | addSeries s => simp [ChartOp.apply, Chart.add_series, ChartOp.seriesArg]

theorem foldl_series_key (ops : List ChartOp) : ∀ c : Chart,
    dictContains (ops.foldl ChartOp.apply c)._chart "series"
      = (dictContains c._chart "series" || ops.any ChartOp.isAdd) := by
  induction ops with
  | nil => intro c; simp
  | cons op rest ih =>
      intro c
      rw [List.foldl_cons, List.any_cons, ih, apply_series_key, Bool.or_assoc]

theorem foldl_instances (ops : List ChartOp) : ∀ c : Chart,
    (ops.foldl ChartOp.apply c)._series_instances_list
      = c._series_instances_list ++ ops.filterMap ChartOp.seriesArg := by
  induction ops with
  | nil => intro c; simp
  | cons op rest ih =>
      intro c
      rw [List.foldl_cons, ih, apply_instances, List.filterMap_cons]
      cases harg : op.seriesArg <;> simp [harg, Option.toList]

theorem buildChart_series_key (ops : List ChartOp) :
    dictContains (buildChart ops)._chart "series" = ops.any ChartOp.isAdd := by
  rw [buildChart, foldl_series_key]
  rfl

theorem buildChart_instances (ops : List ChartOp) :
    (buildChart ops)._series_instances_list = ops.filterMap ChartOp.seriesArg := by
  rw [buildChart, foldl_instances]
  rfl

/-- C3: serializing a chart built by API calls without any `add_series` fails
with the explicit "series has not been defined" error and returns no
document; once at least one `add_series` happened, `to_json_string`
returns a document. -/
theorem to_json_string_series_gate (ops : List ChartOp) :
    (ops.any ChartOp.isAdd = false →
      (buildChart ops).to_json_string
        = .error "The series has not been defined. Cannot create a valid chart.")
    ∧ (ops.any ChartOp.isAdd = true →
      ∃ doc : String, (buildChart ops).to_json_string = .ok doc) := by
  constructor
  · intro h
    have hc : dictContains (buildChart ops)._chart "series" = false := by
      rw [buildChart_series_key, h]
    unfold Chart.to_json_string
    rw [hc]
    simp
  · intro h
    have hc : dictContains (buildChart ops)._chart "series" = true := by
      rw [buildChart_series_key, h]
    unfold Chart.to_json_string
    rw [hc]
    exact ⟨_, rfl⟩

/-- Witness for C3: a chart that was only given a title serializes to the
error; a chart with one added series serializes to a document. -/
theorem to_json_string_series_gate_witness :
    ([ChartOp.setTitle (some "T")].any ChartOp.isAdd = false
      ∧ [ChartOp.addSeries ⟨"s", [[1, 2]], none⟩].any ChartOp.isAdd = true)
    ∧ (buildChart [ChartOp.setTitle (some "T")]).to_json_string
        = .error "The series has not been defined. Cannot create a valid chart."
    ∧ ∃ doc : String,
        (buildChart [ChartOp.addSeries ⟨"s", [[1, 2]], none⟩]).to_json_string = .ok doc :=
  ⟨⟨rfl, rfl⟩,
   (to_json_string_series_gate [ChartOp.setTitle (some "T")]).1 rfl,
   (to_json_string_series_gate [ChartOp.addSeries ⟨"s", [[1, 2]], none⟩]).2 rfl⟩

/-- C10: producing the per-series `var` statements fails with the same
"series has not been defined" error on a chart without any added series —
so `Page.to_html` on a page holding such a chart fails as a whole instead of
emitting partial output — and with added series it returns one
`var <identifier> = <data>;` statement per series, in addition order. -/
theorem get_series_js_var_statements_gate (ops : List ChartOp) :
    (ops.any ChartOp.isAdd = false →
      (buildChart ops).get_series_js_var_statements
          = .error "The series has not been defined. Cannot create a valid chart."
        ∧ ∀ title : Option String,
            Page.to_html ⟨title, [buildChart ops]⟩
              = .error "The series has not been defined. Cannot create a valid chart.")
    ∧ (ops.any ChartOp.isAdd = true →
      (buildChart ops).get_series_js_var_statements
        = .ok ((ops.filterMap ChartOp.seriesArg).map (fun s =>
            "var " ++ s.javascript_var_name ++ " = " ++ s.get_data_as_str ++ ";"))) := by
  constructor
  · intro h
    have hc : dictContains (buildChart ops)._chart "series" = false := by
      rw [buildChart_series_key, h]
    have herr : (buildChart ops).get_series_js_var_statements
        = .error "The series has not been defined. Cannot create a valid chart." := by
      unfold Chart.get_series_js_var_statements
      rw [hc]
      simp
    refine ⟨herr, ?_⟩
    intro title
    unfold Page.to_html Page.chartsHtml Page.chartHtml
    rw [herr]
    rfl
  · intro h
    have hc : dictContains (buildChart ops)._chart "series" = true := by
      rw [buildChart_series_key, h]
    unfold Chart.get_series_js_var_statements
    rw [hc]
    simp only [if_pos rfl]
    rw [buildChart_instances]
    rfl

/-- Witness for C10: a chart with only a subtitle makes both the statement
list and the page rendering fail; a chart with two added series yields their
two `var` statements in addition order. -/
theorem get_series_js_var_statements_gate_witness :
    ([ChartOp.setSubtitle (some "S")].any ChartOp.isAdd = false
      ∧ [ChartOp.addSeries ⟨"a b", [[1, 2]], none⟩,
          ChartOp.addSeries ⟨"3rd", [[3, 4], [5, 6]], none⟩].any ChartOp.isAdd = true)
    ∧ (buildChart [ChartOp.setSubtitle (some "S")]).get_series_js_var_statements
        = .error "The series has not been defined. Cannot create a valid chart."
    ∧ Page.to_html ⟨some "P", [buildChart [ChartOp.setSubtitle (some "S")]]⟩
        = .error "The series has not been defined. Cannot create a valid chart."
    ∧ (buildChart [ChartOp.addSeries ⟨"a b", [[1, 2]], none⟩,
          ChartOp.addSeries ⟨"3rd", [[3, 4], [5, 6]], none⟩]).get_series_js_var_statements
        = .ok ["var a_b_data = [[1, 2]];", "var _3rd_data = [[3, 4], [5, 6]];"] :=
  ⟨⟨rfl, rfl⟩,
   ((get_series_js_var_statements_gate [ChartOp.setSubtitle (some "S")]).1 rfl).1,
   ((get_series_js_var_statements_gate [ChartOp.setSubtitle (some "S")]).1 rfl).2 (some "P"),
   by
    have h := (get_series_js_var_statements_gate
      [ChartOp.addSeries ⟨"a b", [[1, 2]], none⟩,
        ChartOp.addSeries ⟨"3rd", [[3, 4], [5, 6]], none⟩]).2 rfl
    rw [h]
    exact congrArg Except.ok (by decide)⟩

/-- C9 counterexample: on a fresh chart, `set_title(None)` keeps the `title`
section (with a null text) in the configuration mapping instead of removing
it. -/
theorem set_title_none_keeps_section :
    dictGet (Chart.init.set_title none)._chart "title" = some (.obj [("text", Json.null)])
    ∧ dictContains (Chart.init.set_title none)._chart "title" = true :=
  ⟨rfl, rfl⟩

/-- C9 amended: passing a null value removes the section only for
`set_subtitle`, `set_tooltip` and `set_plot_options`; `set_chart` pops the
section but immediately reassigns it with a null `type`; `set_title`,
`set_credits`, `set_xaxis` and `set_yaxis` always (re)write their section,
embedding null values instead of removing anything. -/
theorem setter_null_behavior (c : Chart) (zt : Option String) :
    dictContains (c.set_subtitle none)._chart "subtitle" = false
    ∧ dictContains (c.set_tooltip none)._chart "tooltip" = false
    ∧ dictContains (c.set_plot_options none)._chart "plotOptions" = false
    ∧ dictGet (c.set_chart none zt)._chart "chart"
        = some (.obj [("type", Json.null), ("zoomType", optStr zt)])
    ∧ dictGet (c.set_title none)._chart "title" = some (.obj [("text", Json.null)])
    ∧ dictGet (c.set_credits none none)._chart "credits"
        = some (.obj [("text", Json.null), ("href", Json.null)])
    ∧ dictGet (c.set_xaxis none none)._chart "xAxis"
        = some (.obj [("type", Json.null), ("title", .obj [("text", Json.null)])])
    ∧ dictGet (c.set_yaxis none none)._chart "yAxis"
        = some (.obj [("type", Json.null), ("title", .obj [("text", Json.null)])]) := by
  refine ⟨?_, ?_, ?_, ?_, ?_, ?_, ?_, ?_⟩ <;>
    simp [Chart.set_subtitle, Chart.set_tooltip, Chart.set_plot_options,
      Chart.set_chart, Chart.set_title, Chart.set_credits, Chart.set_xaxis,
      Chart.set_yaxis, dictContains_dictPop, dictContains_dictSet,
      dictGet_dictSet, optStr]

theorem isPrefixOf_iff : ∀ (a b : List Char), a.isPrefixOf b = true ↔ prefOf a b := by
  intro a
  induction a with
  | nil => intro b; simp [List.isPrefixOf, prefOf]
  | cons x a ih =>
      intro b
      cases b with
      | nil =>
          simp only [List.isPrefixOf, prefOf]
          constructor
          · intro h; cases h
          · rintro ⟨t, ht⟩; cases ht
      | cons y b =>
          simp only [List.isPrefixOf, Bool.and_eq_true, beq_iff_eq, ih b]
          constructor
          · rintro ⟨rfl, t, rfl⟩
            exact ⟨t, rfl⟩
          · rintro ⟨t, ht⟩
            injection ht with h1 h2
            exact ⟨h1.symm, t, h2⟩

theorem prefOf_append_cases {a b c : List Char} (h : prefOf a (b ++ c)) :
    prefOf a b ∨ ∃ u, a = b ++ u ∧ prefOf u c := by
  induction b generalizing a with
  | nil =>
      right
      exact ⟨a, rfl, h⟩
  | cons x b ih =>
      cases a with
      | nil => left; exact ⟨x :: b, rfl⟩
      | cons y a =>
          obtain ⟨t, ht⟩ := h
          injection ht with h1 h2
          rcases ih ⟨t, h2⟩ with ⟨t', ht'⟩ | ⟨u, hu, hpu⟩
          · left
            exact ⟨t', by rw [h1, ht']; rfl⟩
          · right
            exact ⟨u, by rw [h1, hu]; rfl, hpu⟩

theorem mem_of_prefOf {a b : List Char} (h : prefOf a b) {x : Char} (hx : x ∈ a) :
    x ∈ b := by
  obtain ⟨t, rfl⟩ := h
  exact List.mem_append_left t hx

theorem prefOf_cons {x y : Char} {a b : List Char} (h : prefOf (x :: a) (y :: b)) :
    x = y ∧ prefOf a b := by
  obtain ⟨t, ht⟩ := h
  injection ht with h1 h2
  exact ⟨h1.symm, t, h2⟩

theorem prefOf_length {a b : List Char} (h : prefOf a b) : a.length ≤ b.length := by
  obtain ⟨t, rfl⟩ := h
  simp

theorem sufOf_trans_len {a b l : List Char} (ha : sufOf a l) (hb : sufOf b l)
    (hlen : a.length ≤ b.length) : sufOf a b := by
  obtain ⟨t1, ht1⟩ := ha
  obtain ⟨t2, ht2⟩ := hb
  have hl : t1 ++ a = t2 ++ b := by rw [← ht1, ← ht2]
  have hlt : t2.length ≤ t1.length := by
    have := congrArg List.length hl
    simp only [List.length_append] at this
    omega
  refine ⟨t1.drop t2.length, ?_⟩
  have hdrop : (t1 ++ a).drop t2.length = t1.drop t2.length ++ a := by
    rw [List.drop_append_of_le_length hlt]
  rw [hl] at hdrop
  rw [List.drop_append_of_le_length (le_refl t2.length)] at hdrop
  simp only [List.drop_length, List.nil_append] at hdrop
  exact hdrop

theorem sufOf_eq_of_len {a b l : List Char} (ha : sufOf a l) (hb : sufOf b l)
    (h : a.length = b.length) : a = b := by
  obtain ⟨t1, ht1⟩ := ha
  obtain ⟨t2, ht2⟩ := hb
  have hl : t1 ++ a = t2 ++ b := by rw [← ht1, ← ht2]
  have hlt : t1.length = t2.length := by
    have := congrArg List.length hl
    simp only [List.length_append] at this
    omega
  exact (List.append_inj hl hlt).2

/-! Lemmas about `replaceL` (Python `str.replace`). -/
theorem replaceLAux_congr (pat rep : List Char) :
    ∀ (f1 : Nat) (l : List Char) (f2 : Nat), l.length ≤ f1 → l.length ≤ f2 →
      replaceLAux pat rep f1 l = replaceLAux pat rep f2 l := by
  intro f1
  induction f1 with
  | zero =>
      intro l f2 h1 _
      have hl : l = [] := List.eq_nil_of_length_eq_zero (Nat.le_zero.mp h1)
      subst hl
      cases f2 <;> rfl
  | succ f ih =>
      intro l f2 h1 h2
      cases l with
      | nil => cases f2 <;> rfl
      | cons c rest =>
          cases f2 with
          | zero => simp at h2
          | succ g =>
              simp only [replaceLAux]
              have hr1 : rest.length ≤ f := by
                simp only [List.length_cons] at h1
                omega
              have hr2 : rest.length ≤ g := by
                simp only [List.length_cons] at h2
                omega
              have hd : (rest.drop (pat.length - 1)).length ≤ rest.length := by
                simp [List.length_drop]
              by_cases hc : (pat.isPrefixOf (c :: rest) && !pat.isEmpty) = true
              · rw [if_pos hc, if_pos hc]
                congr 1
                exact ih _ _ (by omega) (by omega)
              · rw [if_neg hc, if_neg hc]
                congr 1
                exact ih _ _ hr1 hr2

theorem replaceL_cons (pat rep : List Char) (c : Char) (rest : List Char) :
    replaceL pat rep (c :: rest)
      = if pat.isPrefixOf (c :: rest) && !pat.isEmpty then
          rep ++ replaceL pat rep (rest.drop (pat.length - 1))
        else c :: replaceL pat rep rest := by
  unfold replaceL
  rw [show (c :: rest).length = rest.length + 1 from rfl]
  simp only [replaceLAux]
  by_cases hc : (pat.isPrefixOf (c :: rest) && !pat.isEmpty) = true
  · rw [if_pos hc, if_pos hc]
    congr 1
    exact replaceLAux_congr pat rep rest.length _ _ (by simp [List.length_drop]) (le_refl _)
  · rw [if_neg hc, if_neg hc]

theorem replaceL_skip (p0 : Char) (pat' rep : List Char) (s t : List Char)
    (hs : ∀ x ∈ s, x ≠ p0) :
    replaceL (p0 :: pat') rep (s ++ t) = s ++ replaceL (p0 :: pat') rep t := by
  induction s with
  | nil => simp
  | cons c s' ih =>
      rw [List.cons_append, replaceL_cons]
      have hb : (p0 == c) = false := by
        simp only [beq_eq_false_iff_ne, ne_eq]
        exact fun hh => (hs c (by simp)) hh.symm
      have hpre : ((p0 :: pat').isPrefixOf (c :: (s' ++ t))) = false := by
        simp [List.isPrefixOf, hb]
      rw [if_neg (by simp [hpre])]
      rw [ih (fun x hx => hs x (by simp [hx]))]
      rfl

theorem replaceL_match (p0 : Char) (pat' rep t : List Char) :
    replaceL (p0 :: pat') rep ((p0 :: pat') ++ t) = rep ++ replaceL (p0 :: pat') rep t := by
  rw [List.cons_append, replaceL_cons]
  have hpre : (p0 :: pat').isPrefixOf (p0 :: (pat' ++ t)) = true := by
    rw [isPrefixOf_iff]
    exact ⟨t, rfl⟩
  rw [if_pos (by simp [hpre, List.isEmpty])]
  congr 1
  rw [show (p0 :: pat').length - 1 = pat'.length from by simp]
  rw [List.drop_left]

theorem replaceL_of_not_contains (pat rep : List Char) (l : List Char)
    (h : containsL pat l = false) : replaceL pat rep l = l := by
  induction l with
  | nil => rfl
  | cons c rest ih =>
      have hsplit : pat.isPrefixOf (c :: rest) = false ∧ containsL pat rest = false := by
        have : (pat.isPrefixOf (c :: rest) || containsL pat rest) = false := h
        exact ⟨by cases hb : pat.isPrefixOf (c :: rest) <;> simp [hb] at this ⊢,
               by cases hb : containsL pat rest <;> simp [hb] at this ⊢⟩
      rw [replaceL_cons, if_neg (by simp [hsplit.1]), ih hsplit.2]

theorem containsL_iff (pat : List Char) : ∀ l, containsL pat l = true ↔ occursIn pat l := by
  intro l
  induction l with
  | nil =>
      simp only [containsL, occursIn, List.isEmpty_iff]
      constructor
      · intro h
        exact ⟨[], [], by simp [h]⟩
      · rintro ⟨a, b, hab⟩
        rcases List.append_eq_nil.mp hab.symm with ⟨hap, rfl⟩
        rcases List.append_eq_nil.mp hap with ⟨rfl, rfl⟩
        rfl
  | cons c rest ih =>
      simp only [containsL, Bool.or_eq_true, ih, isPrefixOf_iff]
      constructor
      · rintro (⟨t, ht⟩ | ⟨a, b, hab⟩)
        · exact ⟨[], t, by simp [ht]⟩
        · exact ⟨c :: a, b, by simp [hab]⟩
      · rintro ⟨a, b, hab⟩
        cases a with
        | nil => left; exact ⟨b, by simpa using hab⟩
        | cons y a' =>
            right
            injection hab with h1 h2
            exact ⟨a', b, h2⟩

theorem replaceLAux_length_le (pat rep : List Char) (hlen : rep.length ≤ pat.length) :
    ∀ (fuel : Nat) (l : List Char), (replaceLAux pat rep fuel l).length ≤ l.length := by
  intro fuel
  induction fuel with
  | zero => intro l; cases l <;> simp [replaceLAux]
  | succ f ih =>
      intro l
      cases l with
      | nil => simp [replaceLAux]
      | cons c rest =>
          simp only [replaceLAux]
          by_cases hc : (pat.isPrefixOf (c :: rest) && !pat.isEmpty) = true
          · rw [if_pos hc]
            have hp : pat.length ≤ (c :: rest).length :=
              prefOf_length ((isPrefixOf_iff _ _).mp (Bool.and_elim_left hc))
            have hne : pat ≠ [] := by
              intro hp0
              subst hp0
              simp at hc
            have hplen : 1 ≤ pat.length := by
              cases pat with
              | nil => exact absurd rfl hne
              | cons _ _ => simp
            have hih := ih (rest.drop (pat.length - 1))
            simp only [List.length_append, List.length_drop, List.length_cons] at hp hih ⊢
            omega
          · rw [if_neg hc]
            simp only [List.length_cons]
            have := ih rest
            omega

theorem replaceLAux_length_lt (pat rep : List Char) (hlen : rep.length < pat.length) :
    ∀ (fuel : Nat) (l : List Char), l.length ≤ fuel → containsL pat l = true →
      (replaceLAux pat rep fuel l).length < l.length := by
  intro fuel
  induction fuel with
  | zero =>
      intro l h1 h2
      have hl : l = [] := List.eq_nil_of_length_eq_zero (Nat.le_zero.mp h1)
      subst hl
      have : pat = [] := List.isEmpty_iff.mp h2
      subst this
      simp at hlen
  | succ f ih =>
      intro l h1 h2
      cases l with
      | nil =>
          have : pat = [] := List.isEmpty_iff.mp h2
          subst this
          simp at hlen
      | cons c rest =>
          simp only [replaceLAux]
          by_cases hc : (pat.isPrefixOf (c :: rest) && !pat.isEmpty) = true
          · rw [if_pos hc]
            have hp : pat.length ≤ (c :: rest).length :=
              prefOf_length ((isPrefixOf_iff _ _).mp (Bool.and_elim_left hc))
            have hne : pat ≠ [] := by
              intro hp0
              subst hp0
              simp at hc
            have hplen : 1 ≤ pat.length := by
              cases pat with
              | nil => exact absurd rfl hne
              | cons _ _ => simp
            have hih := replaceLAux_length_le pat rep (le_of_lt hlen) f
              (rest.drop (pat.length - 1))
            simp only [List.length_append, List.length_drop, List.length_cons] at hp hih ⊢
            omega
          · rw [if_neg hc]
            have hcr : containsL pat rest = true := by
              have : (pat.isPrefixOf (c :: rest) || containsL pat rest) = true := h2
              rcases Bool.or_eq_true_iff.mp this with hx | hx
              · exfalso
                apply hc
                rw [hx]
                simp only [Bool.true_and, Bool.not_eq_true']
                by_cases hp0 : pat = []
                · subst hp0; simp at hlen
                · simp [List.isEmpty_iff, hp0]
              · exact hx
            have h1' : rest.length ≤ f := by
              simp only [List.length_cons] at h1
              omega
            have := ih rest h1' hcr
            simp only [List.length_cons]
            omega

theorem replaceL_length_lt (pat rep : List Char) (hlen : rep.length < pat.length)
    (l : List Char) (h : containsL pat l = true) :
    (replaceL pat rep l).length < l.length :=
  replaceLAux_length_lt pat rep hlen l.length l (le_refl _) h

/-! The central invariant: in well-formed serializer output, the tail of a
quoted placeholder pattern can never start right after a closing quote. -/
theorem sufOf_trans {a b c : List Char} (h1 : sufOf a b) (h2 : sufOf b c) :
    sufOf a c := by
  obtain ⟨t1, rfl⟩ := h1
  obtain ⟨t2, rfl⟩ := h2
  exact ⟨t2 ++ t1, by simp⟩

theorem structuralRaw_prefix {s' q : List Char} (hs : structuralRaw s')
    (h : prefOf s' (q ++ (placeTail ++ ['"']))) : prefOf s' q := by
  rcases prefOf_append_cases h with h1 | ⟨u, hu, hup⟩
  · exact h1
  · cases u with
    | nil => exact ⟨[], by simp [hu]⟩
    | cons z u' =>
        have hz : z = '_' := (prefOf_cons (by simpa [placeTail] using hup)).1
        exfalso
        apply hs.2
        rw [hu, hz]
        exact List.mem_append_right _ (by simp)

theorem varRaw_prefix {s' q : List Char} (hs : varRaw s')
    (h : prefOf s' (q ++ (placeTail ++ ['"']))) : prefOf s' q := by
  rcases prefOf_append_cases h with h1 | ⟨u, hu, hup⟩
  · exact h1
  · obtain ⟨hq, w, hw⟩ := hs
    cases u with
    | nil => exact ⟨[], by simp [hu]⟩
    | cons z u' =>
        exfalso
        have hvmem : ∀ x ∈ z :: u', x ∈ s' := by
          intro x hx
          rw [hu]
          exact List.mem_append_right _ hx
        have hvq : '"' ∉ z :: u' := fun hx => hq (hvmem _ hx)
        have hvpt : prefOf (z :: u') placeTail := by
          rcases prefOf_append_cases hup with h2 | ⟨m, hm, hmp⟩
          · exact h2
          · cases m with
            | nil =>
                refine ⟨[], ?_⟩
                simpa using hm.symm
            | cons mz m' =>
                exfalso
                have : mz = '"' := (prefOf_cons hmp).1
                apply hvq
                rw [hm, this]
                exact List.mem_append_right _ (by simp)
        have hvs : sufOf (z :: u') s' := ⟨q, hu⟩
        have hds : sufOf dataTail s' := ⟨w, hw⟩
        by_cases hv1 : (z :: u').length = 1
        · have has : sufOf ['a'] s' :=
            sufOf_trans ⟨['_', 'd', 'a', 't'], rfl⟩ hds
          have hva : (z :: u') = ['a'] := sufOf_eq_of_len hvs has (by simpa using hv1)
          have hz : z = '_' := (prefOf_cons (by simpa [placeTail] using hvpt)).1
          injection hva with h1 _
          rw [hz] at h1
          exact absurd h1 (by decide)
        · have hv2 : 2 ≤ (z :: u').length := by
            simp only [List.length_cons] at hv1 ⊢
            omega
          have hts : sufOf ['t', 'a'] s' :=
            sufOf_trans ⟨['_', 'd', 'a'], rfl⟩ hds
          have htv : sufOf ['t', 'a'] (z :: u') := sufOf_trans_len hts hvs (by simpa using hv2)
          have htmem : 't' ∈ z :: u' := by
            obtain ⟨t0, ht0⟩ := htv
            rw [ht0]
            exact List.mem_append_right _ (by simp)
          have : 't' ∈ placeTail := mem_of_prefOf hvpt htmem
          exact absurd this (by decide)

theorem nopref_render (cs : List Chunk) (hcs : GoodChunks cs) :
    ∀ q : List Char, '"' ∉ q → ¬ prefOf (q ++ (placeTail ++ ['"'])) (renderC cs) := by
  induction cs with
  | nil =>
      intro q hq h
      obtain ⟨t, ht⟩ := h
      rw [show renderC [] = [] from rfl] at ht
      have := congrArg List.length ht
      simp [placeTail] at this
      omega
  | cons ch rest ih =>
      intro q hq h
      have hgood := hcs ch (by simp)
      have hrest : GoodChunks rest := fun c hc => hcs c (by simp [hc])
      cases ch with
      | raw s' =>
          rw [show renderC (Chunk.raw s' :: rest) = s' ++ renderC rest from rfl] at h
          rcases prefOf_append_cases h with h1 | ⟨u, hu, hup⟩
          · have hmem : '"' ∈ s' :=
              mem_of_prefOf h1 (List.mem_append_right _ (List.mem_append_right _ (by simp)))
            rcases hgood with ⟨hq1, _⟩ | ⟨hq1, _⟩ <;> exact hq1 hmem
          · have hsp : prefOf s' (q ++ (placeTail ++ ['"'])) := ⟨u, hu⟩
            have hsq : prefOf s' q := by
              rcases hgood with hstruct | hvar
              · exact structuralRaw_prefix hstruct hsp
              · exact varRaw_prefix hvar hsp
            obtain ⟨q'', hq''⟩ := hsq
            have hu' : u = q'' ++ (placeTail ++ ['"']) := by
              apply @List.append_cancel_left _ s' _ _
              rw [← hu, hq'']
              simp [List.append_assoc]
            apply ih hrest q''
              (fun hx => hq (by rw [hq'']; exact List.mem_append_right _ hx))
            rw [← hu']
            exact hup
      | lit s'' =>
          rw [show renderC (Chunk.lit s'' :: rest)
            = '"' :: (s'' ++ '"' :: renderC rest) from rfl] at h
          cases q with
          | nil =>
              obtain ⟨t, ht⟩ := h
              rw [List.nil_append] at ht
              rw [show (placeTail ++ ['"']) ++ t = '_' :: (('p' :: 'l' :: 'a' :: 'c' :: 'e' :: 'h' :: 'o' :: 'l' :: 'd' :: 'e' :: 'r' :: ['"']) ++ t) from rfl] at ht
              injection ht with h1 _
              exact absurd h1 (by decide)
          | cons x q' =>
              obtain ⟨t, ht⟩ := h
              rw [show ((x :: q') ++ (placeTail ++ ['"'])) ++ t
                = x :: ((q' ++ (placeTail ++ ['"'])) ++ t) from rfl] at ht
              injection ht with h1 _
              exact hq (by rw [← h1]; simp)

theorem isPrefixOf_eq_false_of_not {a b : List Char} (h : ¬ prefOf a b) :
    a.isPrefixOf b = false := by
  cases hb : a.isPrefixOf b
  · rfl
  · exact absurd ((isPrefixOf_iff a b).mp hb) h

theorem lit_no_match {s'' q : List Char} (hs : '"' ∉ s'') (hq : '"' ∉ q)
    (hne : s'' ≠ q ++ placeTail) (rr : List Char) :
    ¬ prefOf ((q ++ placeTail) ++ ['"']) (s'' ++ ('"' :: rr)) := by
  intro hp
  rcases prefOf_append_cases hp with h1 | ⟨u, hu, hup⟩
  · exact hs (mem_of_prefOf h1 (List.mem_append_right _ (by simp)))
  · have hs'p : prefOf s'' ((q ++ placeTail) ++ ['"']) := ⟨u, hu⟩
    rcases prefOf_append_cases hs'p with h2 | ⟨v, hv, hvp⟩
    · obtain ⟨m, hm⟩ := h2
      have hu' : u = m ++ ['"'] := by
        apply @List.append_cancel_left _ s'' _ _
        rw [← hu, hm]
        simp [List.append_assoc]
      cases m with
      | nil =>
          apply hne
          simpa using hm.symm
      | cons mz m' =>
          have hmz : mz = '"' := by
            rw [hu'] at hup
            exact (prefOf_cons hup).1
          have hmem : '"' ∈ q ++ placeTail := by
            rw [hm, ← hmz]
            exact List.mem_append_right _ (by simp)
          rcases List.mem_append.mp hmem with hx | hx
          · exact hq hx
          · exact absurd hx (by decide)
    · cases v with
      | nil =>
          apply hne
          simpa using hv
      | cons vz v' =>
          have hvz : vz = '"' := (prefOf_cons hvp).1
          apply hs
          rw [hv, ← hvz]
          exact List.mem_append_right _ (by simp)

theorem replace_chunks (q rep : List Char) (hq : '"' ∉ q) (cs : List Chunk)
    (hcs : GoodChunks cs) :
    replaceL ('"' :: ((q ++ placeTail) ++ ['"'])) rep (renderC cs)
      = renderC (cs.map (fun ch =>
          if ch = Chunk.lit (q ++ placeTail) then Chunk.raw rep else ch)) := by
  induction cs with
  | nil => rfl
  | cons ch rest ih =>
      have hgood := hcs ch (by simp)
      have hrest : GoodChunks rest := fun c hc => hcs c (by simp [hc])
      cases ch with
      | raw s' =>
          have hsq : ∀ x ∈ s', x ≠ '"' := by
            intro x hx hx'
            rcases hgood with ⟨h1, _⟩ | ⟨h1, _⟩ <;> exact h1 (hx' ▸ hx)
          rw [show renderC (Chunk.raw s' :: rest) = s' ++ renderC rest from rfl]
          rw [replaceL_skip _ _ _ _ _ hsq, ih hrest]
          rw [List.map_cons, if_neg (by simp)]
          rfl
      | lit s'' =>
          by_cases heq : s'' = q ++ placeTail
          · subst heq
            have hre : renderC (Chunk.lit ((q ++ placeTail) : List Char) :: rest)
                = ('"' :: ((q ++ placeTail) ++ ['"'])) ++ renderC rest := by
              rw [show renderC (Chunk.lit (q ++ placeTail) :: rest)
                = '"' :: ((q ++ placeTail) ++ '"' :: renderC rest) from rfl]
              simp [List.append_assoc]
            rw [hre, replaceL_match, ih hrest]
            rw [List.map_cons, if_pos rfl]
            rfl
          · have hsq'' : '"' ∉ s'' := hgood
            rw [show renderC (Chunk.lit s'' :: rest)
              = '"' :: (s'' ++ '"' :: renderC rest) from rfl]
            rw [replaceL_cons]
            rw [if_neg (by
              simp only [List.isPrefixOf, beq_self_eq_true, Bool.true_and,
                Bool.and_eq_true, Bool.not_eq_true']
              intro hand
              have hpre := hand.1
              have := (isPrefixOf_iff _ _).mp hpre
              exact absurd this (lit_no_match hsq'' hq heq _))]
            rw [replaceL_skip _ _ _ _ _ (fun x hx hx' => hsq'' (by rw [← hx']; exact hx))]
            rw [replaceL_cons]
            rw [if_neg (by
              simp only [List.isPrefixOf, beq_self_eq_true, Bool.true_and,
                Bool.and_eq_true, Bool.not_eq_true']
              intro hand
              have := (isPrefixOf_iff _ _).mp hand.1
              rw [List.append_assoc] at this
              exact absurd this (nopref_render rest hrest q hq))]
            rw [ih hrest]
            rw [List.map_cons, if_neg (by simp [heq])]
            rfl

theorem strData_append (s t : String) : (s ++ t).data = s.data ++ t.data := by
  cases s
  cases t
  rfl

theorem placeL_eq (s : Series) : placeL s = undL s ++ placeTail := by
  unfold placeL Series.placeholder undL
  rw [strData_append]
  congr 1

theorem varL_eq_varOf (s : Series) : varL s = varOf (undL s) := by
  unfold varL Series.javascript_var_name varOf
  have hv : ((underscoreName s.name ++ "_data") : String).data = undL s ++ dataTail := by
    rw [strData_append]
    congr 1
  rw [hv]
  by_cases hd : ((undL s ++ dataTail).headD ' ').isDigit = true
  · rw [if_pos hd, if_pos hd, strData_append, hv]
    rfl
  · rw [if_neg hd, if_neg hd, hv]

theorem verbatim_all {s : String} (h : verbatimStr s = true) :
    ∀ c ∈ s.data, verbatimChar c = true := by
  intro c hc
  exact List.all_eq_true.mp h c hc

theorem verbatimChar_ne_quote {c : Char} (h : verbatimChar c = true) : c ≠ '"' := by
  intro he
  subst he
  exact absurd h (by decide)

theorem undL_verbatim (s : Series) (h : verbatimStr s.name = true) :
    ∀ c ∈ undL s, verbatimChar c = true := by
  intro c hc
  unfold undL underscoreName at hc
  rcases List.mem_map.mp hc with ⟨c0, hc0, hmap⟩
  by_cases hsp : c0 = ' '
  · rw [hsp] at hmap
    simp at hmap
    rw [← hmap]
    decide
  · simp only [if_neg hsp] at hmap
    rw [← hmap]
    exact verbatim_all h c0 hc0

theorem undL_quote_free (s : Series) (h : verbatimStr s.name = true) :
    '"' ∉ undL s := by
  intro hx
  exact verbatimChar_ne_quote (undL_verbatim s h '"' hx) rfl

theorem varOf_tail (u : List Char) : ∃ w, varOf u = w ++ dataTail := by
  unfold varOf
  by_cases hd : ((u ++ dataTail).headD ' ').isDigit = true
  · rw [if_pos hd]
    exact ⟨'_' :: u, by simp⟩
  · rw [if_neg hd]
    exact ⟨u, rfl⟩

theorem varOf_quote_free (u : List Char) (h : '"' ∉ u) : '"' ∉ varOf u := by
  have hdq : '"' ∉ u ++ dataTail := by
    intro hx
    rcases List.mem_append.mp hx with hx | hx
    · exact h hx
    · exact absurd hx (by decide)
  unfold varOf
  by_cases hd : ((u ++ dataTail).headD ' ').isDigit = true
  · rw [if_pos hd]
    intro hx
    rcases List.mem_cons.mp hx with hx | hx
    · exact absurd hx.symm (by decide)
    · exact hdq hx
  · rw [if_neg hd]
    exact hdq

theorem varL_varRaw (s : Series) (h : verbatimStr s.name = true) : varRaw (varL s) := by
  rw [varL_eq_varOf]
  exact ⟨varOf_quote_free _ (undL_quote_free s h), varOf_tail _⟩

theorem varOf_length (u : List Char) : (varOf u).length ≤ u.length + 6 := by
  unfold varOf
  by_cases hd : ((u ++ dataTail).headD ' ').isDigit = true
  · rw [if_pos hd]
    simp [dataTail]
  · rw [if_neg hd]
    simp [dataTail]

theorem placeL_inj_var {s1 s2 : Series} (h : placeL s1 = placeL s2) :
    varL s1 = varL s2 := by
  have hund : undL s1 = undL s2 := by
    have h' := h
    rw [placeL_eq, placeL_eq] at h'
    exact List.append_cancel_right h'
  rw [varL_eq_varOf, varL_eq_varOf, hund]

/-! The full substitution pipeline at chunk level. -/
theorem quoted_placeL (s : Series) :
    (("\"" ++ s.placeholder ++ "\"") : String).data
      = '"' :: ((undL s ++ placeTail) ++ ['"']) := by
  rw [strData_append, strData_append]
  have hp : (s.placeholder).data = undL s ++ placeTail := placeL_eq s
  rw [hp]
  simp

theorem mapfun_eq (s : Series) :
    (fun ch => if ch = Chunk.lit (undL s ++ placeTail) then Chunk.raw (varL s) else ch)
      = (fun ch => if ch = Chunk.lit (placeL s) then Chunk.raw (varL s) else ch) := by
  rw [placeL_eq]

theorem good_mapSeriesChunk (s : Series) (hname : verbatimStr s.name = true)
    (cs : List Chunk) (hcs : GoodChunks cs) : GoodChunks (mapSeriesChunk s cs) := by
  intro ch hch
  rcases List.mem_map.mp hch with ⟨ch0, hch0, hmap⟩
  by_cases he : ch0 = Chunk.lit (placeL s)
  · rw [← hmap, if_pos he]
    exact Or.inr (varL_varRaw s hname)
  · rw [← hmap, if_neg he]
    exact hcs ch0 hch0

theorem good_pipeline (L : List Series) : ∀ cs : List Chunk, GoodChunks cs →
    (∀ s ∈ L, verbatimStr s.name = true) → GoodChunks (pipelineChunks L cs) := by
  induction L with
  | nil => intro cs hcs _; exact hcs
  | cons s L' ih =>
      intro cs hcs hnames
      exact ih (mapSeriesChunk s cs)
        (good_mapSeriesChunk s (hnames s (by simp)) cs hcs)
        (fun s' hs' => hnames s' (by simp [hs']))

theorem pipeline_replace (L : List Series) : ∀ cs : List Chunk, GoodChunks cs →
    (∀ s ∈ L, verbatimStr s.name = true) →
    (Series.data_placeholder_replace ⟨renderC cs⟩ L).data
      = renderC (pipelineChunks L cs) := by
  induction L with
  | nil => intro cs _ _; rfl
  | cons s L' ih =>
      intro cs hcs hnames
      have hrepl : pyReplace ⟨renderC cs⟩ ("\"" ++ s.placeholder ++ "\"")
          s.javascript_var_name = ⟨renderC (mapSeriesChunk s cs)⟩ := by
        unfold pyReplace
        congr 1
        rw [quoted_placeL]
        have hrc := replace_chunks (undL s) (varL s)
          (undL_quote_free s (hnames s (by simp))) cs hcs
        rw [mapfun_eq] at hrc
        exact hrc
      have hstep : Series.data_placeholder_replace ⟨renderC cs⟩ (s :: L')
          = Series.data_placeholder_replace ⟨renderC (mapSeriesChunk s cs)⟩ L' := by
        rw [show Series.data_placeholder_replace ⟨renderC cs⟩ (s :: L')
          = Series.data_placeholder_replace (pyReplace ⟨renderC cs⟩
              ("\"" ++ s.placeholder ++ "\"") s.javascript_var_name) L' from rfl]
        rw [hrepl]
      rw [hstep]
      exact ih (mapSeriesChunk s cs)
        (good_mapSeriesChunk s (hnames s (by simp)) cs hcs)
        (fun s' hs' => hnames s' (by simp [hs']))

theorem mem_map_if (s : Series) {ch : Chunk} {cs : List Chunk} (h : ch ∈ cs) :
    (if ch = Chunk.lit (placeL s) then Chunk.raw (varL s) else ch) ∈ mapSeriesChunk s cs :=
  List.mem_map_of_mem (fun c => if c = Chunk.lit (placeL s) then Chunk.raw (varL s) else c) h

theorem raw_mem_mapSeries {v : List Char} {cs : List Chunk} (s : Series)
    (h : Chunk.raw v ∈ cs) : Chunk.raw v ∈ mapSeriesChunk s cs := by
  have hm := mem_map_if s h
  rwa [if_neg (by simp)] at hm

theorem raw_mem_pipeline {v : List Char} (L : List Series) :
    ∀ cs : List Chunk, Chunk.raw v ∈ cs → Chunk.raw v ∈ pipelineChunks L cs := by
  induction L with
  | nil => intro cs h; exact h
  | cons s L' ih => intro cs h; exact ih _ (raw_mem_mapSeries s h)

theorem var_mem_pipeline (L : List Series) : ∀ (s : Series), s ∈ L →
    ∀ cs : List Chunk, (Chunk.lit (placeL s) ∈ cs ∨ Chunk.raw (varL s) ∈ cs) →
    Chunk.raw (varL s) ∈ pipelineChunks L cs := by
  induction L with
  | nil => intro s hs; cases hs
  | cons s0 L' ih =>
      intro s hs cs hmem
      rw [show pipelineChunks (s0 :: L') cs
        = pipelineChunks L' (mapSeriesChunk s0 cs) from rfl]
      rcases List.mem_cons.mp hs with rfl | hsL'
      · have hraw : Chunk.raw (varL s) ∈ mapSeriesChunk s cs := by
          rcases hmem with hlit | hraw
          · have hm := mem_map_if s hlit
            rwa [if_pos rfl] at hm
          · exact raw_mem_mapSeries s hraw
        exact raw_mem_pipeline L' _ hraw
      · rcases hmem with hlit | hraw
        · by_cases he : placeL s0 = placeL s
          · have hm := mem_map_if s0 hlit
            rw [if_pos (by rw [he])] at hm
            refine ih s hsL' _ (Or.inr ?_)
            rw [← placeL_inj_var he]
            exact hm
          · have hm := mem_map_if s0 hlit
            rw [if_neg (by intro hh; injection hh with h2; exact he h2.symm)] at hm
            exact ih s hsL' _ (Or.inl hm)
        · exact ih s hsL' _ (Or.inr (raw_mem_mapSeries s0 hraw))

theorem lit_target_absent (s' : Series) (cs : List Chunk) :
    Chunk.lit (placeL s') ∉ mapSeriesChunk s' cs := by
  intro hmem
  rcases List.mem_map.mp hmem with ⟨ch0, hch0, hmap⟩
  by_cases he : ch0 = Chunk.lit (placeL s')
  · rw [if_pos he] at hmap
    cases hmap
  · rw [if_neg he] at hmap
    exact he hmap

theorem lit_mem_down {t : List Char} (s' : Series) {cs : List Chunk}
    (h : Chunk.lit t ∈ mapSeriesChunk s' cs) : Chunk.lit t ∈ cs := by
  rcases List.mem_map.mp h with ⟨ch0, hch0, hmap⟩
  by_cases he : ch0 = Chunk.lit (placeL s')
  · rw [if_pos he] at hmap
    cases hmap
  · rw [if_neg he] at hmap
    exact hmap ▸ hch0

theorem lit_absent_pipeline (L : List Series) : ∀ (cs : List Chunk) {t : List Char},
    Chunk.lit t ∉ cs → Chunk.lit t ∉ pipelineChunks L cs := by
  induction L with
  | nil => intro cs t h; exact h
  | cons s L' ih =>
      intro cs t h
      exact ih _ (fun hmem => h (lit_mem_down s hmem))

theorem no_lit_pipeline (L : List Series) : ∀ (s : Series), s ∈ L →
    ∀ cs : List Chunk, Chunk.lit (placeL s) ∉ pipelineChunks L cs := by
  induction L with
  | nil => intro s hs; cases hs
  | cons s0 L' ih =>
      intro s hs cs
      rw [show pipelineChunks (s0 :: L') cs
        = pipelineChunks L' (mapSeriesChunk s0 cs) from rfl]
      rcases List.mem_cons.mp hs with rfl | hsL'
      · exact lit_absent_pipeline L' _ (lit_target_absent s cs)
      · exact ih s hsL' _

theorem lit_mem_pipeline {t : List Char} (L : List Series)
    (hne : ∀ s ∈ L, t ≠ placeL s) :
    ∀ cs : List Chunk, Chunk.lit t ∈ cs → Chunk.lit t ∈ pipelineChunks L cs := by
  induction L with
  | nil => intro cs h; exact h
  | cons s L' ih =>
      intro cs h
      apply ih (fun s' hs' => hne s' (by simp [hs']))
      show Chunk.lit t ∈ mapSeriesChunk s cs
      have hm := mem_map_if s h
      rwa [if_neg (by intro hh; injection hh with h2; exact hne s (by simp) h2)] at hm

theorem mapSeries_id (s : Series) (cs : List Chunk)
    (h : Chunk.lit (placeL s) ∉ cs) : mapSeriesChunk s cs = cs := by
  unfold mapSeriesChunk
  conv_rhs => rw [← List.map_id cs]
  apply List.map_congr_left
  intro ch hch
  show (if ch = Chunk.lit (placeL s) then Chunk.raw (varL s) else ch) = id ch
  rw [if_neg (fun he : ch = Chunk.lit (placeL s) => h (he ▸ hch))]
  rfl

theorem renderC_append (cs1 cs2 : List Chunk) :
    renderC (cs1 ++ cs2) = renderC cs1 ++ renderC cs2 := by
  induction cs1 with
  | nil => simp [renderC]
  | cons ch rest ih =>
      cases ch with
      | raw s => simp [renderC, ih]
      | lit s => simp [renderC, ih]

theorem occurs_raw {v : List Char} (cs : List Chunk) (h : Chunk.raw v ∈ cs) :
    occursIn v (renderC cs) := by
  obtain ⟨l1, l2, rfl⟩ := List.append_of_mem h
  rw [renderC_append]
  exact ⟨renderC l1, renderC l2, by simp [renderC, List.append_assoc]⟩

theorem occurs_lit {t : List Char} (cs : List Chunk) (h : Chunk.lit t ∈ cs) :
    occursIn ('"' :: (t ++ ['"'])) (renderC cs) := by
  obtain ⟨l1, l2, rfl⟩ := List.append_of_mem h
  rw [renderC_append]
  refine ⟨renderC l1, renderC l2, ?_⟩
  rw [show renderC (Chunk.lit t :: l2) = '"' :: (t ++ '"' :: renderC l2) from rfl]
  simp [List.append_assoc]

theorem varL_lt_pattern (s : Series) :
    (varL s).length < ('"' :: ((undL s ++ placeTail) ++ ['"'])).length := by
  have h1 := varOf_length (undL s)
  rw [varL_eq_varOf]
  simp only [List.length_cons, List.length_append, placeTail]
  simp only [List.length_cons, List.length_nil]
  omega

theorem no_quoted_placeholder_final (L : List Series)
    (hnames : ∀ s' ∈ L, verbatimStr s'.name = true)
    (s : Series) (hs : s ∈ L) (cs : List Chunk) (hcs : GoodChunks cs) :
    containsL ('"' :: ((undL s ++ placeTail) ++ ['"']))
      (renderC (pipelineChunks L cs)) = false := by
  by_contra hc
  have hc' : containsL ('"' :: ((undL s ++ placeTail) ++ ['"']))
      (renderC (pipelineChunks L cs)) = true := by
    revert hc
    cases containsL ('"' :: ((undL s ++ placeTail) ++ ['"']))
      (renderC (pipelineChunks L cs)) <;> simp
  have hgoodf : GoodChunks (pipelineChunks L cs) := good_pipeline L cs hcs hnames
  have hid := replace_chunks (undL s) (varL s)
    (undL_quote_free s (hnames s hs)) _ hgoodf
  rw [mapfun_eq] at hid
  rw [show ((pipelineChunks L cs).map
      (fun ch => if ch = Chunk.lit (placeL s) then Chunk.raw (varL s) else ch))
    = mapSeriesChunk s (pipelineChunks L cs) from rfl] at hid
  rw [mapSeries_id s _ (no_lit_pipeline L s hs cs)] at hid
  have hlen := replaceL_length_lt _ _ (varL_lt_pattern s) _ hc'
  rw [hid] at hlen
  exact lt_irrefl _ hlen

/-! The serializer only emits good chunks when every string is verbatim. -/
theorem escChar_verbatim (c : Char) (h : verbatimChar c = true) : escChar c = [c] := by
  unfold verbatimChar at h
  simp only [Bool.and_eq_true, Bool.not_eq_true', decide_eq_true_eq,
    decide_eq_false_iff_not] at h
  obtain ⟨⟨⟨h1, h2⟩, hq⟩, hb⟩ := h
  have hn : c ≠ '\n' := fun he => by rw [he] at h1; exact absurd h1 (by decide)
  have ht : c ≠ '\t' := fun he => by rw [he] at h1; exact absurd h1 (by decide)
  have hr : c ≠ '\r' := fun he => by rw [he] at h1; exact absurd h1 (by decide)
  have h8 : c ≠ Char.ofNat 8 := fun he => by rw [he] at h1; exact absurd h1 (by decide)
  have h12 : c ≠ Char.ofNat 12 := fun he => by rw [he] at h1; exact absurd h1 (by decide)
  unfold escChar
  rw [if_neg hq, if_neg hb, if_neg hn, if_neg ht, if_neg hr, if_neg h8, if_neg h12,
    if_pos ⟨h1, h2⟩]

theorem escapeJson_of_all : ∀ l : List Char, (∀ c ∈ l, verbatimChar c = true) →
    escapeJson l = l := by
  intro l
  induction l with
  | nil => intro _; rfl
  | cons c l ih =>
      intro h
      show escChar c ++ escapeJson l = c :: l
      rw [escChar_verbatim c (h c (by simp)), ih (fun c2 hc2 => h c2 (by simp [hc2]))]
      rfl

theorem verbatim_no_quote {l : List Char} (h : ∀ c ∈ l, verbatimChar c = true) :
    '"' ∉ l := fun hmem => absurd (h '"' hmem) (by decide)

theorem natDigitsAux_chars : ∀ (fuel n : Nat), n ≤ fuel ∨ n < 10 →
    ∀ c ∈ natDigitsAux fuel n, ∃ m, m < 10 ∧ c = digitChar m := by
  intro fuel
  induction fuel with
  | zero =>
      intro n hn c hc
      rw [show natDigitsAux 0 n = [digitChar n] from rfl] at hc
      rcases List.mem_singleton.mp hc with rfl
      exact ⟨n, by rcases hn with h | h <;> omega, rfl⟩
  | succ fuel ih =>
      intro n hn c hc
      rw [show natDigitsAux (fuel + 1) n = (if n < 10 then [digitChar n]
        else natDigitsAux fuel (n / 10) ++ [digitChar (n % 10)]) from rfl] at hc
      by_cases h10 : n < 10
      · rw [if_pos h10] at hc
        rcases List.mem_singleton.mp hc with rfl
        exact ⟨n, h10, rfl⟩
      · rw [if_neg h10] at hc
        rcases List.mem_append.mp hc with h1 | h2
        · refine ih (n / 10) (Or.inl ?_) c h1
          rcases hn with h | h
          · omega
          · omega
        · rcases List.mem_singleton.mp h2 with rfl
          exact ⟨n % 10, by omega, rfl⟩

theorem intRender_chars (n : Int) (c : Char) (hc : c ∈ intRender n) :
    c = '-' ∨ ∃ m, m < 10 ∧ c = digitChar m := by
  unfold intRender at hc
  by_cases hneg : n < 0
  · rw [if_pos hneg] at hc
    rcases List.mem_cons.mp hc with rfl | h
    · left; rfl
    · right; exact natDigitsAux_chars n.natAbs n.natAbs (Or.inl le_rfl) c h
  · rw [if_neg hneg] at hc
    right; exact natDigitsAux_chars n.natAbs n.natAbs (Or.inl le_rfl) c hc

theorem intRender_structural (n : Int) : structuralRaw (intRender n) := by
  constructor
  · intro h
    rcases intRender_chars n '"' h with h1 | ⟨m, hm, h2⟩
    · exact absurd h1 (by decide)
    · interval_cases m <;> exact absurd h2 (by decide)
  · intro h
    rcases intRender_chars n '_' h with h1 | ⟨m, hm, h2⟩
    · exact absurd h1 (by decide)
    · interval_cases m <;> exact absurd h2 (by decide)

theorem spaces_chars {c : Char} {n : Nat} (h : c ∈ spaces n) : c = ' ' :=
  List.eq_of_mem_replicate h

theorem structural_of_chars {l : List Char} (h : ∀ c ∈ l, c ≠ '"' ∧ c ≠ '_') :
    structuralRaw l :=
  ⟨fun hm => (h _ hm).1 rfl, fun hm => (h _ hm).2 rfl⟩

theorem structuralRaw_open (a : Char) (ha : a ≠ '"' ∧ a ≠ '_') (n : Nat) :
    structuralRaw (a :: '\n' :: spaces n) := by
  apply structural_of_chars
  intro c hc
  rcases List.mem_cons.mp hc with rfl | hc
  · exact ha
  rcases List.mem_cons.mp hc with rfl | hc
  · exact (by decide)
  · rw [spaces_chars hc]
    exact (by decide)

theorem structuralRaw_close (b : Char) (hb : b ≠ '"' ∧ b ≠ '_') (n : Nat) :
    structuralRaw ('\n' :: spaces n ++ [b]) := by
  apply structural_of_chars
  intro c hc
  rcases List.mem_cons.mp hc with rfl | hc
  · exact (by decide)
  rcases List.mem_append.mp hc with hc | hc
  · rw [spaces_chars hc]
    exact (by decide)
  · rcases List.mem_singleton.mp hc with rfl
    exact hb

theorem goodChunks_nil : GoodChunks [] := fun c hc => absurd hc (List.not_mem_nil c)

theorem goodChunks_cons {ch : Chunk} {cs : List Chunk} (h : GoodChunk ch)
    (hs : GoodChunks cs) : GoodChunks (ch :: cs) :=
  fun c hc => (List.mem_cons.mp hc).elim (fun e => e ▸ h) (hs c)

theorem goodChunks_singleton {ch : Chunk} (h : GoodChunk ch) : GoodChunks [ch] :=
  goodChunks_cons h goodChunks_nil

theorem goodChunks_append {cs1 cs2 : List Chunk} (h1 : GoodChunks cs1)
    (h2 : GoodChunks cs2) : GoodChunks (cs1 ++ cs2) :=
  fun ch hch => (List.mem_append.mp hch).elim (h1 ch) (h2 ch)

theorem structural_dec {l : List Char} (h1 : '"' ∉ l) (h2 : '_' ∉ l) :
    structuralRaw l := ⟨h1, h2⟩

theorem lit_good {s : String} (h : verbatimStr s = true) :
    GoodChunk (Chunk.lit (escapeJson s.data)) := by
  show '"' ∉ escapeJson s.data
  rw [escapeJson_of_all s.data (verbatim_all h)]
  exact verbatim_no_quote (verbatim_all h)

mutual

/-- Every chunk the serializer emits is good when all strings are verbatim. -/
theorem dumps_good : ∀ (j : Json) (ind : Nat),
    (∀ s ∈ JStrings j, verbatimStr s = true) → GoodChunks (dumpsChunks j ind)
  | .null, _, _ => goodChunks_singleton (Or.inl (structural_dec (by decide) (by decide)))
  | .bool true, _, _ =>
      goodChunks_singleton (Or.inl (structural_dec (by decide) (by decide)))
  | .bool false, _, _ =>
      goodChunks_singleton (Or.inl (structural_dec (by decide) (by decide)))
  | .num n, _, _ => goodChunks_singleton (Or.inl (intRender_structural n))
  | .str s, _, h =>
      goodChunks_singleton (lit_good (h s (show s ∈ [s] from List.mem_singleton.mpr rfl)))
  | .arr [], _, _ => goodChunks_singleton (Or.inl (structural_dec (by decide) (by decide)))
  | .arr (j :: js), ind, h =>
      goodChunks_cons (Or.inl (structuralRaw_open '[' (by decide) (ind + 2)))
        (goodChunks_append
          (goodChunks_append
            (dumps_good j (ind + 2) (fun s hs => h s
              (show s ∈ JStrings j ++ JStringsArr js from List.mem_append.mpr (Or.inl hs))))
            (dumpsArr_good js (ind + 2) (fun s hs => h s
              (show s ∈ JStrings j ++ JStringsArr js from List.mem_append.mpr (Or.inr hs)))))
          (goodChunks_singleton (Or.inl (structuralRaw_close ']' (by decide) ind))))
  | .obj [], _, _ => goodChunks_singleton (Or.inl (structural_dec (by decide) (by decide)))
  | .obj ((k, v) :: fs), ind, h =>
      goodChunks_cons (Or.inl (structuralRaw_open lbrace (by decide) (ind + 2)))
        (goodChunks_cons (lit_good (h k
            (show k ∈ k :: (JStrings v ++ JStringsObj fs) from List.mem_cons_self k _)))
          (goodChunks_cons (Or.inl (structural_dec (by decide) (by decide)))
            (goodChunks_append
              (goodChunks_append
                (dumps_good v (ind + 2) (fun s hs => h s
                  (show s ∈ k :: (JStrings v ++ JStringsObj fs) from
                    List.mem_cons_of_mem k (List.mem_append.mpr (Or.inl hs)))))
                (dumpsObj_good fs (ind + 2) (fun s hs => h s
                  (show s ∈ k :: (JStrings v ++ JStringsObj fs) from
                    List.mem_cons_of_mem k (List.mem_append.mpr (Or.inr hs))))))
              (goodChunks_singleton (Or.inl (structuralRaw_close rbrace (by decide) ind))))))

/-- Continuation chunks of an array are good. -/
theorem dumpsArr_good : ∀ (l : List Json) (ind : Nat),
    (∀ s ∈ JStringsArr l, verbatimStr s = true) → GoodChunks (dumpsArr l ind)
  | [], _, _ => goodChunks_nil
  | j :: js, ind, h =>
      goodChunks_cons (Or.inl (structuralRaw_open ',' (by decide) ind))
        (goodChunks_append
          (dumps_good j ind (fun s hs => h s
            (show s ∈ JStrings j ++ JStringsArr js from List.mem_append.mpr (Or.inl hs))))
          (dumpsArr_good js ind (fun s hs => h s
            (show s ∈ JStrings j ++ JStringsArr js from List.mem_append.mpr (Or.inr hs)))))

/-- Continuation chunks of an object are good. -/
theorem dumpsObj_good : ∀ (l : List (String × Json)) (ind : Nat),
    (∀ s ∈ JStringsObj l, verbatimStr s = true) → GoodChunks (dumpsObj l ind)
  | [], _, _ => goodChunks_nil
  | (k, v) :: fs, ind, h =>
      goodChunks_cons (Or.inl (structuralRaw_open ',' (by decide) ind))
        (goodChunks_cons (lit_good (h k
            (show k ∈ k :: (JStrings v ++ JStringsObj fs) from List.mem_cons_self k _)))
          (goodChunks_cons (Or.inl (structural_dec (by decide) (by decide)))
            (goodChunks_append
              (dumps_good v ind (fun s hs => h s
                (show s ∈ k :: (JStrings v ++ JStringsObj fs) from
                  List.mem_cons_of_mem k (List.mem_append.mpr (Or.inl hs)))))
              (dumpsObj_good fs ind (fun s hs => h s
                (show s ∈ k :: (JStrings v ++ JStringsObj fs) from
                  List.mem_cons_of_mem k (List.mem_append.mpr (Or.inr hs))))))))

end

mutual

/-- Every string of the value shows up as a literal chunk of its serialization. -/
theorem dumps_lit_mem : ∀ (j : Json) (ind : Nat) (s : String), s ∈ JStrings j →
    Chunk.lit (escapeJson s.data) ∈ dumpsChunks j ind
  | .null, _, s, hs => absurd hs (List.not_mem_nil s)
  | .bool _, _, s, hs => absurd hs (List.not_mem_nil s)
  | .num _, _, s, hs => absurd hs (List.not_mem_nil s)
  | .str t, ind, s, hs => by
      rcases List.mem_singleton.mp (show s ∈ [t] from hs) with rfl
      exact List.mem_singleton.mpr rfl
  | .arr [], _, s, hs => absurd hs (List.not_mem_nil s)
  | .arr (j :: js), ind, s, hs => by
      rcases List.mem_append.mp (show s ∈ JStrings j ++ JStringsArr js from hs) with h1 | h2
      · exact List.mem_cons_of_mem _ (List.mem_append.mpr (Or.inl
          (List.mem_append.mpr (Or.inl (dumps_lit_mem j (ind + 2) s h1)))))
      · exact List.mem_cons_of_mem _ (List.mem_append.mpr (Or.inl
          (List.mem_append.mpr (Or.inr (dumpsArr_lit_mem js (ind + 2) s h2)))))
  | .obj [], _, s, hs => absurd hs (List.not_mem_nil s)
  | .obj ((k, v) :: fs), ind, s, hs => by
      rcases List.mem_cons.mp (show s ∈ k :: (JStrings v ++ JStringsObj fs) from hs)
        with rfl | h2
      · exact List.mem_cons_of_mem _ (List.mem_cons_self _ _)
      · rcases List.mem_append.mp h2 with h3 | h4
        · exact List.mem_cons_of_mem _ (List.mem_cons_of_mem _ (List.mem_cons_of_mem _
            (List.mem_append.mpr (Or.inl (List.mem_append.mpr (Or.inl
              (dumps_lit_mem v (ind + 2) s h3)))))))
        · exact List.mem_cons_of_mem _ (List.mem_cons_of_mem _ (List.mem_cons_of_mem _
            (List.mem_append.mpr (Or.inl (List.mem_append.mpr (Or.inr
              (dumpsObj_lit_mem fs (ind + 2) s h4)))))))

/-- Array version of `dumps_lit_mem`. -/
theorem dumpsArr_lit_mem : ∀ (l : List Json) (ind : Nat) (s : String),
    s ∈ JStringsArr l → Chunk.lit (escapeJson s.data) ∈ dumpsArr l ind
  | [], _, s, hs => absurd hs (List.not_mem_nil s)
  | j :: js, ind, s, hs => by
      rcases List.mem_append.mp (show s ∈ JStrings j ++ JStringsArr js from hs) with h1 | h2
      · exact List.mem_cons_of_mem _ (List.mem_append.mpr (Or.inl (dumps_lit_mem j ind s h1)))
      · exact List.mem_cons_of_mem _ (List.mem_append.mpr (Or.inr (dumpsArr_lit_mem js ind s h2)))

/-- Object version of `dumps_lit_mem`. -/
theorem dumpsObj_lit_mem : ∀ (l : List (String × Json)) (ind : Nat) (s : String),
    s ∈ JStringsObj l → Chunk.lit (escapeJson s.data) ∈ dumpsObj l ind
  | [], _, s, hs => absurd hs (List.not_mem_nil s)
  | (k, v) :: fs, ind, s, hs => by
      rcases List.mem_cons.mp (show s ∈ k :: (JStrings v ++ JStringsObj fs) from hs)
        with rfl | h2
      · exact List.mem_cons_of_mem _ (List.mem_cons_self _ _)
      · rcases List.mem_append.mp h2 with h3 | h4
        · exact List.mem_cons_of_mem _ (List.mem_cons_of_mem _ (List.mem_cons_of_mem _
            (List.mem_append.mpr (Or.inl (dumps_lit_mem v ind s h3)))))
        · exact List.mem_cons_of_mem _ (List.mem_cons_of_mem _ (List.mem_cons_of_mem _
            (List.mem_append.mpr (Or.inr (dumpsObj_lit_mem fs ind s h4)))))

end

/-! Locating the series strings inside the chart dict. -/
theorem mem_of_dictGet : ∀ {d : List (String × Json)} {k : String} {v : Json},
    dictGet d k = some v → (k, v) ∈ d := by
  intro d
  induction d with
  | nil => intro k v h; cases h
  | cons p t ih =>
      rcases p with ⟨k0, v0⟩
      intro k v h
      rw [show dictGet ((k0, v0) :: t) k
        = (if k0 = k then some v0 else dictGet t k) from rfl] at h
      by_cases he : k0 = k
      · rw [if_pos he] at h
        injection h with h2
        subst he
        subst h2
        exact List.mem_cons_self _ _
      · rw [if_neg he] at h
        exact List.mem_cons_of_mem _ (ih h)

theorem JStrings_obj_mem : ∀ {d : List (String × Json)} {k : String} {v : Json},
    (k, v) ∈ d → ∀ {s : String}, s ∈ JStrings v → s ∈ JStringsObj d := by
  intro d
  induction d with
  | nil => intro k v h; cases h
  | cons p t ih =>
      rcases p with ⟨k0, v0⟩
      intro k v h s hs
      show s ∈ k0 :: (JStrings v0 ++ JStringsObj t)
      rcases List.mem_cons.mp h with he | h2
      · injection he with e1 e2
        subst e1
        subst e2
        exact List.mem_cons_of_mem _ (List.mem_append.mpr (Or.inl hs))
      · exact List.mem_cons_of_mem _ (List.mem_append.mpr (Or.inr (ih h2 hs)))

theorem JStrings_arr_mem : ∀ {l : List Json} {j : Json}, j ∈ l →
    ∀ {s : String}, s ∈ JStrings j → s ∈ JStringsArr l := by
  intro l
  induction l with
  | nil => intro j h; cases h
  | cons j0 t ih =>
      intro j h s hs
      show s ∈ JStrings j0 ++ JStringsArr t
      rcases List.mem_cons.mp h with rfl | h2
      · exact List.mem_append.mpr (Or.inl hs)
      · exact List.mem_append.mpr (Or.inr (ih h2 hs))

theorem series_name_mem (s : Series) : s.name ∈ JStrings (Series.series s) := by
  show s.name ∈ JStringsObj ([("name", Json.str s.name), ("data", Json.str s.placeholder)]
    ++ (match s.marker with | some m => [("marker", m)] | none => []))
  cases s.marker with
  | none => simp [JStringsObj, JStrings]
  | some m => simp [JStringsObj, JStrings]

theorem series_placeholder_mem (s : Series) :
    s.placeholder ∈ JStrings (Series.series s) := by
  show s.placeholder ∈ JStringsObj ([("name", Json.str s.name),
    ("data", Json.str s.placeholder)]
    ++ (match s.marker with | some m => [("marker", m)] | none => []))
  cases s.marker with
  | none => simp [JStringsObj, JStrings]
  | some m => simp [JStringsObj, JStrings]

theorem chart_str_mem {c : Chart} (h1 : dictGet c._chart "series"
      = some (.arr (c._series_instances_list.map Series.series)))
    {s : Series} (hs : s ∈ c._series_instances_list) {w : String}
    (hw : w ∈ JStrings (Series.series s)) : w ∈ JStringsObj c._chart :=
  JStrings_obj_mem (mem_of_dictGet h1)
    (show w ∈ JStrings (.arr (c._series_instances_list.map Series.series)) from
      JStrings_arr_mem (List.mem_map_of_mem Series.series hs) hw)

theorem placeL_verbatim (s : Series) (h : verbatimStr s.name = true) :
    ∀ c ∈ placeL s, verbatimChar c = true := by
  rw [placeL_eq]
  intro c hc
  rcases List.mem_append.mp hc with hc | hc
  · exact undL_verbatim s h c hc
  · exact (by decide : ∀ c ∈ placeTail, verbatimChar c = true) c hc

theorem escape_placeholder (s : Series) (h : verbatimStr s.name = true) :
    escapeJson (Series.placeholder s).data = placeL s := by
  show escapeJson (placeL s) = placeL s
  exact escapeJson_of_all _ (placeL_verbatim s h)

/-- C2: for a chart whose configuration strings (keys and values, including
series names) are printable ASCII free of double quotes and backslashes, and
whose `series` key holds the serialized forms of its recorded series
instances, `to_json_string` succeeds and the resulting document contains each
series' javascript variable identifier — substituted as a bare raw chunk,
not a quoted literal — and contains zero occurrences of that series' quoted
placeholder string. -/
theorem to_json_string_placeholder_resolution (c : Chart)
    (h1 : dictGet c._chart "series"
      = some (.arr (c._series_instances_list.map Series.series)))
    (h2 : c._series_instances_list ≠ [])
    (h3 : ∀ t ∈ JStringsObj c._chart, verbatimStr t = true) :
    ∃ doc : String, c.to_json_string = .ok doc ∧
      doc.data = renderC (pipelineChunks c._series_instances_list
        (dumpsChunks (.obj c._chart) 0)) ∧
      ∀ s ∈ c._series_instances_list,
        Chunk.raw (varL s) ∈ pipelineChunks c._series_instances_list
          (dumpsChunks (.obj c._chart) 0) ∧
        pyContains doc s.javascript_var_name = true ∧
        pyContains doc ("\"" ++ s.placeholder ++ "\"") = false := by
  have hcont : dictContains c._chart "series" = true := by
    unfold dictContains
    rw [h1]
    rfl
  have hvs : ∀ s ∈ c._series_instances_list, verbatimStr s.name = true :=
    fun s hs => h3 s.name (chart_str_mem h1 hs (series_name_mem s))
  have hgood : GoodChunks (dumpsChunks (.obj c._chart) 0) :=
    dumps_good (.obj c._chart) 0 (fun t ht => h3 t ht)
  have hdoc : (Series.data_placeholder_replace (dumps (.obj c._chart))
      c._series_instances_list).data
      = renderC (pipelineChunks c._series_instances_list
        (dumpsChunks (.obj c._chart) 0)) :=
    pipeline_replace c._series_instances_list (dumpsChunks (.obj c._chart) 0) hgood hvs
  refine ⟨Series.data_placeholder_replace (dumps (.obj c._chart))
    c._series_instances_list, ?_, hdoc, ?_⟩
  · simp [Chart.to_json_string, hcont]
  · intro s hs
    have hlitmem : Chunk.lit (placeL s) ∈ dumpsChunks (.obj c._chart) 0 := by
      have hm := dumps_lit_mem (.obj c._chart) 0 s.placeholder
        (show s.placeholder ∈ JStrings (.obj c._chart) from
          chart_str_mem h1 hs (series_placeholder_mem s))
      rwa [escape_placeholder s (hvs s hs)] at hm
    have hraw : Chunk.raw (varL s) ∈ pipelineChunks c._series_instances_list
        (dumpsChunks (.obj c._chart) 0) :=
      var_mem_pipeline c._series_instances_list s hs _ (Or.inl hlitmem)
    refine ⟨hraw, ?_, ?_⟩
    · unfold pyContains
      rw [hdoc]
      exact (containsL_iff _ _).mpr (occurs_raw _ hraw)
    · unfold pyContains
      rw [quoted_placeL, hdoc]
      exact no_quoted_placeholder_final c._series_instances_list hvs s hs _ hgood

theorem to_json_string_placeholder_resolution_witness :
    ∃ doc : String,
      (Chart.init.add_series ⟨"test series", [[1, 1], [2, 2]], none⟩).to_json_string
        = .ok doc ∧
      doc.data = renderC (pipelineChunks
        (Chart.init.add_series
          ⟨"test series", [[1, 1], [2, 2]], none⟩)._series_instances_list
        (dumpsChunks (.obj (Chart.init.add_series
          ⟨"test series", [[1, 1], [2, 2]], none⟩)._chart) 0)) ∧
      ∀ s ∈ (Chart.init.add_series
          ⟨"test series", [[1, 1], [2, 2]], none⟩)._series_instances_list,
        Chunk.raw (varL s) ∈ pipelineChunks
          (Chart.init.add_series
            ⟨"test series", [[1, 1], [2, 2]], none⟩)._series_instances_list
          (dumpsChunks (.obj (Chart.init.add_series
            ⟨"test series", [[1, 1], [2, 2]], none⟩)._chart) 0) ∧
        pyContains doc s.javascript_var_name = true ∧
        pyContains doc ("\"" ++ s.placeholder ++ "\"") = false :=
  to_json_string_placeholder_resolution _ rfl (List.cons_ne_nil _ _) (by decide)

set_option maxRecDepth 8000 in
theorem to_json_string_placeholder_resolution_cex :
    (Chart.init.add_series ⟨"\"", [[1, 2]], none⟩).to_json_string.toOption.map
      (fun doc => pyContains doc (Series.javascript_var_name ⟨"\"", [[1, 2]], none⟩))
      = some false := by decide

theorem dpr_id : ∀ (L : List Series) (js : String),
    (∀ s ∈ L, pyContains js ("\"" ++ s.placeholder ++ "\"") = false) →
    Series.data_placeholder_replace js L = js := by
  intro L
  induction L with
  | nil => intro js _; rfl
  | cons s L' ih =>
      intro js h
      show Series.data_placeholder_replace
        (pyReplace js ("\"" ++ s.placeholder ++ "\"") s.javascript_var_name) L' = js
      have hid : pyReplace js ("\"" ++ s.placeholder ++ "\"")
          s.javascript_var_name = js := by
        unfold pyReplace
        rw [replaceL_of_not_contains _ _ _ (h s (by simp))]
      rw [hid]
      exact ih js (fun s2 hs2 => h s2 (by simp [hs2]))

/-- C8: the substitution replaces only literal quoted occurrences of a
placeholder token.  Concretely: (i) a serialized document containing no
occurrence of any series' quoted placeholder is returned unchanged by
`data_placeholder_replace`; and (ii) for a chart whose configuration strings
are printable ASCII free of double quotes and backslashes, every
configuration string that is not itself some series' placeholder token —
e.g. a longer name or title that merely contains the token's characters —
still occurs as its own quoted literal in the document `to_json_string`
returns. -/
theorem data_placeholder_replace_quoted_only (c : Chart)
    (h1 : dictGet c._chart "series"
      = some (.arr (c._series_instances_list.map Series.series)))
    (h3 : ∀ t ∈ JStringsObj c._chart, verbatimStr t = true) :
    (∀ js : String, (∀ s ∈ c._series_instances_list,
        pyContains js ("\"" ++ s.placeholder ++ "\"") = false) →
      Series.data_placeholder_replace js c._series_instances_list = js) ∧
    (∀ w ∈ JStringsObj c._chart,
      (∀ s ∈ c._series_instances_list, w ≠ s.placeholder) →
      ∃ doc : String, c.to_json_string = .ok doc ∧
        pyContains doc ("\"" ++ w ++ "\"") = true) := by
  constructor
  · intro js h
    exact dpr_id c._series_instances_list js h
  · intro w hw hwne
    have hcont : dictContains c._chart "series" = true := by
      unfold dictContains
      rw [h1]
      rfl
    have hvs : ∀ s ∈ c._series_instances_list, verbatimStr s.name = true :=
      fun s hs => h3 s.name (chart_str_mem h1 hs (series_name_mem s))
    have hgood : GoodChunks (dumpsChunks (.obj c._chart) 0) :=
      dumps_good (.obj c._chart) 0 (fun t ht => h3 t ht)
    have hdoc : (Series.data_placeholder_replace (dumps (.obj c._chart))
        c._series_instances_list).data
        = renderC (pipelineChunks c._series_instances_list
          (dumpsChunks (.obj c._chart) 0)) :=
      pipeline_replace c._series_instances_list
        (dumpsChunks (.obj c._chart) 0) hgood hvs
    refine ⟨Series.data_placeholder_replace (dumps (.obj c._chart))
      c._series_instances_list, by simp [Chart.to_json_string, hcont], ?_⟩
    have hesc : escapeJson w.data = w.data :=
      escapeJson_of_all _ (verbatim_all (h3 w hw))
    have hlit0 : Chunk.lit w.data ∈ dumpsChunks (.obj c._chart) 0 := by
      have hm := dumps_lit_mem (.obj c._chart) 0 w
        (show w ∈ JStrings (.obj c._chart) from hw)
      rwa [hesc] at hm
    have hne : ∀ s ∈ c._series_instances_list, w.data ≠ placeL s := by
      intro s hs heq
      exact hwne s hs (congrArg String.mk heq)
    have hlitf : Chunk.lit w.data ∈ pipelineChunks c._series_instances_list
        (dumpsChunks (.obj c._chart) 0) :=
      lit_mem_pipeline c._series_instances_list hne _ hlit0
    have hq : (("\"" ++ w ++ "\"") : String).data = '"' :: (w.data ++ ['"']) := by
      rw [strData_append, strData_append]
      rw [show ("\"" : String).data = ['"'] from rfl]
      simp
    unfold pyContains
    rw [hq, hdoc]
    exact (containsL_iff _ _).mpr (occurs_lit _ hlitf)

theorem data_placeholder_replace_quoted_only_witness :
    Series.data_placeholder_replace "no placeholders here"
      (Chart.init.add_series ⟨"test series", [[1, 1]], none⟩)._series_instances_list
      = "no placeholders here" ∧
    ∃ doc : String,
      (Chart.init.add_series ⟨"test series", [[1, 1]], none⟩).to_json_string
        = .ok doc ∧
      pyContains doc ("\"" ++ "Chart Title" ++ "\"") = true :=
  ⟨(data_placeholder_replace_quoted_only
      (Chart.init.add_series ⟨"test series", [[1, 1]], none⟩) rfl (by decide)).1
      "no placeholders here" (by decide),
   (data_placeholder_replace_quoted_only
      (Chart.init.add_series ⟨"test series", [[1, 1]], none⟩) rfl (by decide)).2
      "Chart Title" (by decide) (by decide)⟩

set_option maxRecDepth 8000 in
theorem data_placeholder_replace_quoted_only_cex :
    pyContains (dumps (.obj ((Chart.init.set_title
        (some "\"x_placeholder")).add_series ⟨"x", [[1, 2]], none⟩)._chart))
      "\\\"x_placeholder" = true ∧
    ((Chart.init.set_title (some "\"x_placeholder")).add_series
      ⟨"x", [[1, 2]], none⟩).to_json_string.toOption.map
      (fun doc => pyContains doc "\\\"x_placeholder") = some false := by
  constructor
  · decide
  · decide
